import Mathlib

/-!
Verification development for the `tvws` TradingView WebSocket client.

The definitions below are a shallow embedding of the TypeScript sources:

* `src/connection/protocol.ts` — the frame codec (`parseMessage` / `createMessage`);
* `src/connection/websocket.ts` — endpoint fallback in `connect`;
* `src/utils/validation.ts` — `validateAmount`, `validateSymbol`, `validateSymbols`;
* `src/data/candles.ts` — `CandleDataProcessor`, `SymbolStateManager`,
  `ChartSessionManager`, `CandleEventHandler`;
* the bundled `getCandlesConcurrent` / `getCandlesStream` orchestrators
  (`examples/tvws-bundle` sources) and `src/data/stream.ts` (`CandleStream`).

JavaScript semantics that matter are modelled explicitly: `Map` objects become
association lists (`mapGet` / `mapSet`), truthiness of optional strings and
numbers is spelled out (`jsStrFalsy`, `jsAmtTruthy`), and `Array.prototype.slice`
with a negated length argument keeps its `-0` behaviour (`jsSliceToNeg`).
All recursive functions are structural (on a list or on an explicit fuel
counter), so every closed evaluation reduces by `rfl`.
-/

namespace Tvws

/-! ## JavaScript container and truthiness helpers -/

/-- Lookup in a JavaScript `Map` modelled as an association list
(`Map.get`: the first — and, as `mapSet` replaces in place, only — binding
of the key, or `undefined`). -/
def mapGet {β : Type} (m : List (String × β)) (k : String) : Option β :=
  match m with
  | [] => none
  | (k₀, v₀) :: rest => if k₀ = k then some v₀ else mapGet rest k

/-- Update in a JavaScript `Map` modelled as an association list
(`Map.set`: replace the existing binding in place, else append). -/
def mapSet {β : Type} (m : List (String × β)) (k : String) (v : β) : List (String × β) :=
  match m with
  | [] => [(k, v)]
  | (k₀, v₀) :: rest => if k₀ = k then (k, v) :: rest else (k₀, v₀) :: mapSet rest k v

/-- Truthiness of the result of a `Map.get` for string values: JavaScript
`!symbol` is true when the lookup produced `undefined` or the empty string. -/
def jsStrFalsy (o : Option String) : Bool :=
  match o with
  | none => true
  | some s => s.isEmpty

/-- Truthiness of an optional JavaScript number used as a requested amount:
`amount` is falsy when it is `undefined` or `0`. -/
def jsAmtTruthy (amount : Option Nat) : Bool :=
  match amount with
  | none => false
  | some n => n != 0

/-- JavaScript `xs.slice(0, -n)` for a natural `n`. For `n > 0` this drops the
last `n` elements (clamping at the empty list). For `n = 0` the end index is
`-0`, which JavaScript collapses to `0`, so the result is the empty list —
not the whole list. The candle deduplication code reaches this call with
`n` equal to the accumulated candle count. -/
def jsSliceToNeg {α : Type} (xs : List α) (n : Nat) : List α :=
  if n = 0 then [] else xs.take (xs.length - n)

/-! ## Candle data model (`src/types/index.ts`, `src/data/candles.ts`) -/

/-- Raw candle from the wire: an index and the positional value array
(timestamp, open, high, low, close, volume). Values are carried opaquely;
the embedding models them as integers. -/
structure RawCandle where
  i : Int
  v : List Int
deriving Repr, DecidableEq

/-- Processed candle with named fields, as returned to callers. The source
field `open` is spelled `open_` because `open` is a Lean keyword. -/
structure Candle where
  timestamp : Int
  open_ : Int
  high : Int
  low : Int
  close : Int
  volume : Int
deriving Repr, DecidableEq

/-- Positional access `c.v[k]` of a raw candle's value array; JavaScript
yields `undefined` for missing entries, modelled as `0` (the claims under
verification never depend on out-of-range accesses). -/
def rawVal (c : RawCandle) (k : Nat) : Int :=
  c.v.getD k 0

/-- CandleDataProcessor.processCandle: fixed positional field mapping
(0 = timestamp, 1 = open, 2 = high, 3 = low, 4 = close, 5 = volume). -/
def processCandle (c : RawCandle) : Candle :=
  { timestamp := rawVal c 0
    open_ := rawVal c 1
    high := rawVal c 2
    low := rawVal c 3
    close := rawVal c 4
    volume := rawVal c 5 }

/-- CandleDataProcessor.processCandles: map `processCandle` over the array. -/
def processCandles (cs : List RawCandle) : List Candle :=
  cs.map processCandle

/-- Maximum batch size for data requests (`MAX_BATCH_SIZE`). -/
def MAX_BATCH_SIZE : Nat := 5000

/-- CandleDataProcessor.calculateBatchSize:
`amount && amount < MAX_BATCH_SIZE ? amount : MAX_BATCH_SIZE`. -/
def calculateBatchSize (amount : Option Nat) : Nat :=
  if jsAmtTruthy amount && amount.getD 0 < MAX_BATCH_SIZE then amount.getD 0
  else MAX_BATCH_SIZE

/-- CandleDataProcessor.filterNewCandles: payloads of at most `batchSize`
candles pass through unchanged; longer payloads are cut with
`newCandles.slice(0, -existingCandles.length)`. -/
def filterNewCandles (newCandles existingCandles : List RawCandle) (batchSize : Nat) :
    List RawCandle :=
  if newCandles.length ≤ batchSize then newCandles
  else jsSliceToNeg newCandles existingCandles.length

/-- CandleDataProcessor.shouldRequestMoreData: request another page when the
accumulated count is positive, a multiple of `MAX_BATCH_SIZE` (the constant,
not the per-request batch size), and below the requested amount (or no
truthy amount was requested). -/
def shouldRequestMoreData (loadedCount : Nat) (requestedAmount : Option Nat) : Bool :=
  decide (0 < loadedCount) &&
    loadedCount % MAX_BATCH_SIZE == 0 &&
    (!jsAmtTruthy requestedAmount || decide (loadedCount < requestedAmount.getD 0))

/-- CandleDataProcessor.trimToAmount: `amount ? candles.slice(0, amount) : candles`. -/
def trimToAmount (candles : List Candle) (amount : Option Nat) : List Candle :=
  if jsAmtTruthy amount then candles.take (amount.getD 0) else candles

/-! ## Validation (`src/utils/validation.ts`) -/

/-- Character class of the symbol pattern `/^[A-Z0-9:_.-]+$/i`. -/
def symbolChar (c : Char) : Bool :=
  c.isAlpha || c.isDigit || c = ':' || c = '_' || c = '.' || c = '-'

/-- String trimming (`symbol.trim()`), over the character data. -/
def jsTrim (s : String) : String :=
  ⟨((s.data.dropWhile Char.isWhitespace).reverse.dropWhile Char.isWhitespace).reverse⟩

/-- A JavaScript value passed as the optional `amount` argument: absent,
a number (JavaScript numbers modelled as rationals), or some non-number. -/
inductive JsAmount where
  | undef
  | num (q : Rat)
  | notNum
deriving Repr, DecidableEq

/-- validateAmount: accept `undefined`; otherwise require a number that is an
integer, strictly positive, and at most `10000`, throwing (modelled as
`Except.error` with the thrown message) on each failing check in source
order. -/
def validateAmount (amount : JsAmount) : Except String Unit :=
  match amount with
  | .undef => .ok ()
  | .notNum => .error "Amount must be a number"
  | .num q =>
    if q.den ≠ 1 then .error "Amount must be an integer"
    else if q ≤ 0 then .error "Amount must be greater than 0"
    else if 10000 < q then .error "Amount cannot exceed 10000 candles per request"
    else .ok ()

/-- validateSymbol: a symbol must be a nonempty string, without surrounding
whitespace, matching `/^[A-Z0-9:_.-]+$/i`. -/
def validateSymbol (symbol : String) : Except String Unit :=
  if symbol.isEmpty then .error "Symbol must be a non-empty string"
  else if jsTrim symbol ≠ symbol then .error "Symbol cannot have leading or trailing whitespace"
  else if !symbol.data.all symbolChar then .error "Invalid symbol format"
  else .ok ()

/-- validateSymbols: at least one and at most 100 symbols, each individually
valid. -/
def validateSymbols (symbols : List String) : Except String Unit :=
  if symbols.length = 0 then .error "At least one symbol must be provided"
  else if 100 < symbols.length then .error "Cannot request more than 100 symbols in a single request"
  else if symbols.all (fun s => (validateSymbol s).isOk) then .ok ()
  else .error "Invalid symbol"

/-! ## Per-symbol state and events (`src/data/candles.ts`) -/

/-- Per-symbol accumulator state (`SymbolState`). -/
structure SymbolState where
  candles : List RawCandle
  completed : Bool
  error : Bool
deriving Repr, DecidableEq

/-- Fresh state installed by `SymbolStateManager.initializeSymbol`. -/
def freshSymbolState : SymbolState :=
  { candles := [], completed := false, error := false }

/-- One series entry of a `timescale_update` session-data object: an object
that may or may not carry an `s` array of raw candles. -/
structure SeriesEntry where
  s : Option (List RawCandle)
deriving Repr, DecidableEq

/-- Session data (`event.params[1]`) of a `timescale_update`: a JavaScript
object whose keys may include series entries. -/
def SessionData : Type := List (String × SeriesEntry)

/-- An application event as routed to the candle handlers. The handlers only
ever read `event.name`, `event.params[0]` (the session id) and
`event.params[1]` (the session data), so the embedding carries exactly
those; a missing `params[1]` is `none` (JavaScript `undefined`). -/
structure TvEvent where
  name : String
  sessionId : String
  payload : Option SessionData

/-- A JavaScript runtime exception raised while handling an event. -/
inductive JsErrorKind where
  | syntaxError
  | typeError
  | protocolError
deriving Repr, DecidableEq

/-- CandleDataProcessor.findSeriesKey: the first key of the session data that
starts with `sds_` and has a truthy `s` field (an array — even an empty
one — is truthy; an absent field is not). -/
def findSeriesKey (sessionData : SessionData) : Option String :=
  match sessionData with
  | [] => none
  | (k, e) :: rest =>
    if ("sds_".data.isPrefixOf k.data) && e.s.isSome then some k else findSeriesKey rest

/-- A command written to the connection by the candle machinery
(`connection.send` calls issued by `ChartSessionManager`). -/
inductive SentCmd where
  | chartCreateSession (session : String)
  | resolveSymbol (session symbolSession symbol : String)
  | createSeries (session seriesId symbolSession : String) (batchSize : Nat)
  | modifySeries (session seriesId symbolSession : String)
  | requestMoreData (session series : String) (batchSize : Nat)
deriving Repr, DecidableEq

/-- Immutable context of a `CandleEventHandler`: the session → symbol map of
its `ChartSessionManager`, the batch size and the requested amount. -/
structure HandlerCtx where
  sessionMap : List (String × String)
  batchSize : Nat
  requestedAmount : Option Nat

/-- SymbolStateManager.updateSymbolCandles: prepend the new candles when the
symbol has a state that is not completed. -/
def updateSymbolCandles (states : List (String × SymbolState)) (symbol : String)
    (newCandles : List RawCandle) : List (String × SymbolState) :=
  match mapGet states symbol with
  | none => states
  | some st =>
    if st.completed then states
    else mapSet states symbol { st with candles := newCandles ++ st.candles }

/-- SymbolStateManager.markSymbolCompleted: set `completed` and the error flag
when the symbol has a state. -/
def markSymbolCompleted (states : List (String × SymbolState)) (symbol : String)
    (hasError : Bool) : List (String × SymbolState) :=
  match mapGet states symbol with
  | none => states
  | some st => mapSet states symbol { st with completed := true, error := hasError }

/-- SymbolStateManager.getProcessedCandles: the symbol's accumulated candles
(empty when unknown), trimmed to the amount when one is given, processed. -/
def getProcessedCandles (states : List (String × SymbolState)) (symbol : String)
    (amount : Option Nat) : List Candle :=
  match mapGet states symbol with
  | none => []
  | some st =>
    let finalCandles := if jsAmtTruthy amount then st.candles.take (amount.getD 0) else st.candles
    processCandles finalCandles

/-- CandleEventHandler.handleTimescaleUpdate. The session id is looked up
first; unmapped (or empty-string) symbols and completed or missing states
return without touching anything. Only then is the session data inspected —
an absent `params[1]` makes `Object.keys` throw, modelled as a
`typeError`. -/
def handleTimescaleUpdate (ctx : HandlerCtx) (states : List (String × SymbolState))
    (ev : TvEvent) : Except JsErrorKind (List (String × SymbolState)) :=
  let symbol? := mapGet ctx.sessionMap ev.sessionId
  if jsStrFalsy symbol? then .ok states
  else
    let symbol := symbol?.getD ""
    match mapGet states symbol with
    | none => .ok states
    | some st =>
      if st.completed then .ok states
      else
        match ev.payload with
        | none => .error .typeError
        | some sessionData =>
          match findSeriesKey sessionData with
          | none => .ok states
          | some seriesKey =>
            match (mapGet sessionData seriesKey).bind (·.s) with
            | none => .ok states
            | some newCandles₀ =>
              let newCandles := filterNewCandles newCandles₀ st.candles ctx.batchSize
              .ok (updateSymbolCandles states symbol newCandles)

/-- Result of `CandleEventHandler.handleSeriesEvent`: the boolean the method
returns, the updated symbol states, the commands sent, and the
`onSymbolCompleted` callback invocation (if any). -/
structure SeriesEventResult where
  completed : Bool
  states : List (String × SymbolState)
  sent : List SentCmd
  yieldOut : Option (String × List Candle)
deriving DecidableEq

/-- CandleEventHandler.handleSeriesEvent: on a `series_completed` or
`symbol_error` event, either issue `request_more_data` and stay
non-terminal, or mark the symbol completed (with the error flag for
`symbol_error`) and hand the processed candles to the completion
callback. -/
def handleSeriesEvent (ctx : HandlerCtx) (states : List (String × SymbolState))
    (ev : TvEvent) : SeriesEventResult :=
  let symbol? := mapGet ctx.sessionMap ev.sessionId
  if jsStrFalsy symbol? then ⟨false, states, [], none⟩
  else
    let symbol := symbol?.getD ""
    match mapGet states symbol with
    | none => ⟨false, states, [], none⟩
    | some st =>
      if st.completed then ⟨false, states, [], none⟩
      else
        let loadedCount := st.candles.length
        if shouldRequestMoreData loadedCount ctx.requestedAmount then
          ⟨false, states, [.requestMoreData ev.sessionId "sds_1" ctx.batchSize], none⟩
        else
          let hasError := ev.name == "symbol_error"
          let states₁ := markSymbolCompleted states symbol hasError
          let processed := getProcessedCandles states₁ symbol ctx.requestedAmount
          ⟨true, states₁, [], some (symbol, processed)⟩

/-! ## Concurrent retrieval (`getCandlesConcurrent`, bundled orchestrator)

The bundled `getCandlesConcurrent` creates one chart session per symbol,
registers each session in a session → symbol map, and processes inbound
events in a single subscription callback. The embedding below is that
callback as a state-transition function, folded over the arriving events.
The random chart-session identifiers (`cs_<symbol>_<random>`) are supplied
as a parameter list; the code relies on `Math.random` never colliding, which
theorems state as a `Nodup` hypothesis. -/

/-- Outcome of the promise returned by `getCandlesConcurrent`: `resolve` with
the results array (slots of the sparse JavaScript array modelled as
options), or `reject` with a caught exception. -/
inductive ConcOutcome where
  | resolved (results : List (Option (List Candle)))
  | rejected (err : JsErrorKind)
deriving DecidableEq

/-- Immutable context of one `getCandlesConcurrent` call. -/
structure ConcCtx where
  symbols : List String
  sessionMap : List (String × String)
  batchSize : Nat
  amount : Option Nat

/-- Mutable state of one `getCandlesConcurrent` call: the per-symbol states,
the pre-sized results array, the completion counter, the commands sent, the
promise outcome, and whether the subscription has been removed. -/
structure ConcState where
  symbolStates : List (String × SymbolState)
  results : List (Option (List Candle))
  completedCount : Nat
  sent : List SentCmd
  outcome : Option ConcOutcome
  unsubscribed : Bool
deriving DecidableEq

/-- Settle a promise: the first `resolve`/`reject` wins, later ones are
ignored. -/
def settle (o : Option ConcOutcome) (new : ConcOutcome) : Option ConcOutcome :=
  match o with
  | some x => some x
  | none => some new

/-- The inline `shouldRequestMoreData` check of the bundled orchestrators:
`loadedCount > 0 && loadedCount % batchSize === 0 && (!amount || loadedCount < amount)`
(note: modulo the per-request batch size, unlike
`CandleDataProcessor.shouldRequestMoreData`). -/
def shouldRequestMoreInline (loadedCount batchSize : Nat) (amount : Option Nat) : Bool :=
  decide (0 < loadedCount) &&
    loadedCount % batchSize == 0 &&
    (!jsAmtTruthy amount || decide (loadedCount < amount.getD 0))

/-- The `timescale_update` branch of the concurrent subscription callback:
route by session id, drop unmapped or completed sessions, locate the series
key, deduplicate oversized payloads with `slice(0, -accumulated)`, and
prepend. A missing `params[1]` throws and is caught by the callback's
`try`/`catch`, which rejects the promise. -/
def concTimescale (ctx : ConcCtx) (st : ConcState) (ev : TvEvent) : ConcState :=
  let symbol? := mapGet ctx.sessionMap ev.sessionId
  if jsStrFalsy symbol? then st
  else
    let symbol := symbol?.getD ""
    match mapGet st.symbolStates symbol with
    | none => st
    | some sym =>
      if sym.completed then st
      else
        match ev.payload with
        | none => { st with outcome := settle st.outcome (.rejected .typeError) }
        | some sessionData =>
          match findSeriesKey sessionData with
          | none => st
          | some seriesKey =>
            match (mapGet sessionData seriesKey).bind (·.s) with
            | none => st
            | some newCandles₀ =>
              let newCandles :=
                if ctx.batchSize < newCandles₀.length then
                  jsSliceToNeg newCandles₀ sym.candles.length
                else newCandles₀
              { st with
                symbolStates :=
                  mapSet st.symbolStates symbol { sym with candles := newCandles ++ sym.candles } }

/-- The `series_completed` / `symbol_error` branch of the concurrent
subscription callback: either request another page, or complete the symbol,
write its processed candles into the results slot at the symbol's original
input index, and resolve once every symbol is completed. -/
def concSeries (ctx : ConcCtx) (st : ConcState) (ev : TvEvent) : ConcState :=
  let symbol? := mapGet ctx.sessionMap ev.sessionId
  if jsStrFalsy symbol? then st
  else
    let symbol := symbol?.getD ""
    match mapGet st.symbolStates symbol with
    | none => st
    | some sym =>
      if sym.completed then st
      else
        let loadedCount := sym.candles.length
        if shouldRequestMoreInline loadedCount ctx.batchSize ctx.amount then
          { st with sent := st.sent ++ [.requestMoreData ev.sessionId "sds_1" ctx.batchSize] }
        else
          let sym₁ :=
            { sym with
              completed := true
              error := if ev.name == "symbol_error" then true else sym.error }
          let finalCandles :=
            if jsAmtTruthy ctx.amount then sym.candles.take (ctx.amount.getD 0) else sym.candles
          let processed := processCandles finalCandles
          let originalIndex := List.indexOf symbol ctx.symbols
          let results₁ := st.results.set originalIndex (some processed)
          let cc := st.completedCount + 1
          let st₁ :=
            { st with
              symbolStates := mapSet st.symbolStates symbol sym₁
              results := results₁
              completedCount := cc }
          if cc = ctx.symbols.length then
            { st₁ with unsubscribed := true, outcome := settle st₁.outcome (.resolved results₁) }
          else st₁

/-- One inbound event through the concurrent subscription callback. After
`unsubscribe()` the callback is no longer invoked; other event names fall
through. -/
def concStep (ctx : ConcCtx) (st : ConcState) (ev : TvEvent) : ConcState :=
  if st.unsubscribed then st
  else if ev.name == "timescale_update" then concTimescale ctx st ev
  else if ev.name == "series_completed" || ev.name == "symbol_error" then concSeries ctx st ev
  else st

/-- Setup of `getCandlesConcurrent`: compute the batch size, install a fresh
state per symbol, register each supplied chart-session id against its
symbol, and send the create/resolve/create-series command triple per
symbol. `sessionIds` stands for the random `cs_<symbol>_<random>` ids. -/
def concInit (symbols sessionIds : List String) (amount : Option Nat) :
    ConcCtx × ConcState :=
  let ctx : ConcCtx :=
    { symbols := symbols
      sessionMap := sessionIds.zip symbols
      batchSize := calculateBatchSize amount
      amount := amount }
  let st : ConcState :=
    { symbolStates := symbols.foldl (fun m s => mapSet m s freshSymbolState) []
      results := List.replicate symbols.length none
      completedCount := 0
      sent :=
        (sessionIds.zip symbols).flatMap fun (sid, sym) =>
          [SentCmd.chartCreateSession sid,
           SentCmd.resolveSymbol sid "" sym,
           SentCmd.createSeries sid "sds_1" "" (calculateBatchSize amount)]
      outcome := none
      unsubscribed := false }
  (ctx, st)

/-- Run `getCandlesConcurrent`: initialise, then feed the inbound events to
the subscription callback in arrival order. -/
def concRun (symbols sessionIds : List String) (amount : Option Nat)
    (events : List TvEvent) : ConcState :=
  let (ctx, st) := concInit symbols sessionIds amount
  events.foldl (concStep ctx) st

/-- A `timescale_update` event delivering one batch of candles for a session
under the `sds_1` series key. -/
def updEvent (sid : String) (bars : List RawCandle) : TvEvent :=
  { name := "timescale_update", sessionId := sid, payload := some [("sds_1", ⟨some bars⟩)] }

/-- A completion (`series_completed`) or failure (`symbol_error`) event for a
session; neither carries session data the handlers read. -/
def cmplEvent (name sid : String) : TvEvent :=
  { name := name, sessionId := sid, payload := none }

/-! ## Streaming delivery (`src/data/stream.ts`, `CandleStream`)

`CandleStream.stream` is an async generator: a subscription callback fills a
pending queue and flags errors, while the generator loop drains the queue.
The embedding models the callback (`streamEvent`) and one iteration of the
generator's control flow (`consumerStep`) as steps on a common state; an
execution is any interleaving of the two, which is exactly the freedom the
JavaScript scheduler has between suspension points. -/

/-- State of one `CandleStream`: handler-side fields (`symbolStates`,
`pendingYields`, `activeCount`, `hasError`, `errorMessage`, subscription
flag) plus the generator's observable behaviour (`yielded` values so far and
the final fate — `some none` for a normal return, `some (some m)` for a
raised error `m`). -/
structure StreamState where
  symbolStates : List (String × SymbolState)
  pendingYields : List (String × List Candle)
  activeCount : Nat
  hasError : Bool
  errorMessage : Option String
  unsubscribed : Bool
  yielded : List (List Candle)
  finished : Option (Option String)
deriving DecidableEq

/-- CandleStream.cleanup: unsubscribe and clear the symbol states. -/
def streamCleanup (st : StreamState) : StreamState :=
  { st with unsubscribed := true, symbolStates := [] }

/-- The message attached to a caught JavaScript exception
(`error.message`). -/
def jsErrMessage (e : JsErrorKind) : String :=
  match e with
  | .syntaxError => "SyntaxError"
  | .typeError => "TypeError"
  | .protocolError => "ProtocolError"

/-- The `CandleStream` subscription callback for one inbound event:
`timescale_update` goes through `handleTimescaleUpdate`; completion events
go through `handleSeriesEvent`, pushing the completed symbol's candles onto
the pending queue (when `candles.length > 0 || !hasError`) and decrementing
`activeCount`; a thrown exception is caught, flagging `hasError` with the
message and cleaning up. -/
def streamEvent (ctx : HandlerCtx) (st : StreamState) (ev : TvEvent) : StreamState :=
  if st.unsubscribed then st
  else if ev.name == "timescale_update" then
    match handleTimescaleUpdate ctx st.symbolStates ev with
    | .ok states₁ => { st with symbolStates := states₁ }
    | .error e =>
      streamCleanup { st with hasError := true, errorMessage := some (jsErrMessage e) }
  else if ev.name == "series_completed" || ev.name == "symbol_error" then
    let r := handleSeriesEvent ctx st.symbolStates ev
    let st₁ := { st with symbolStates := r.states }
    let st₂ :=
      match r.yieldOut with
      | none => st₁
      | some (symbol, candles) =>
        if 0 < candles.length || !st.hasError then
          { st₁ with pendingYields := st₁.pendingYields ++ [(symbol, candles)] }
        else st₁
    if r.completed then
      let st₃ := { st₂ with activeCount := st₂.activeCount - 1 }
      if st₃.activeCount = 0 then streamCleanup st₃ else st₃
    else st₂
  else st

/-- Truthiness of `this.errorMessage` (`null` and the empty string are
falsy). -/
def errMsgTruthy (o : Option String) : Bool :=
  match o with
  | none => false
  | some m => !m.isEmpty

/-- One iteration of the generator body of `CandleStream.stream`: while
`activeCount > 0 && !hasError`, yield the head of the pending queue (or
idle when it is empty); once the loop exits, throw the recorded error if
one is set, otherwise drain the remaining queue and finish, running the
`finally` cleanup on exit. -/
def consumerStep (st : StreamState) : StreamState :=
  match st.finished with
  | some _ => st
  | none =>
    if 0 < st.activeCount && !st.hasError then
      match st.pendingYields with
      | y :: rest => { st with pendingYields := rest, yielded := st.yielded ++ [y.2] }
      | [] => st
    else if st.hasError && errMsgTruthy st.errorMessage then
      streamCleanup { st with finished := some (some (st.errorMessage.getD "")) }
    else
      match st.pendingYields with
      | y :: rest => { st with pendingYields := rest, yielded := st.yielded ++ [y.2] }
      | [] => streamCleanup { st with finished := some none }

/-- Initial state of a `CandleStream` over the given symbols. -/
def streamInit (symbols : List String) : StreamState :=
  { symbolStates := symbols.foldl (fun m s => mapSet m s freshSymbolState) []
    pendingYields := []
    activeCount := symbols.length
    hasError := false
    errorMessage := none
    unsubscribed := false
    yielded := []
    finished := none }

/-! ## Endpoint fallback (`src/connection/websocket.ts`, `connect`) -/

/-- The named endpoints, in the insertion order of the `ENDPOINTS` record in
`src/types/index.ts` (the order `Object.entries` iterates). -/
def ENDPOINTS : List (String × String) :=
  [("data", "wss://data.tradingview.com/socket.io/websocket"),
   ("prodata", "wss://prodata.tradingview.com/socket.io/websocket"),
   ("charts-polygon", "wss://charts-polygon.tradingview.com/socket.io/websocket"),
   ("widgetdata", "wss://widgetdata.tradingview.com/socket.io/websocket")]

/-- Connection options consumed by `connect` (the credential plays no role in
endpoint selection). -/
structure ConnectionOptions where
  endpoint : Option String
deriving Repr

/-- An error thrown while connecting. `connectionError` mirrors the
`ConnectionError` class of `src/utils/errors.ts`; `otherError` is any other
JavaScript error (socket failures, timeouts, …). -/
inductive ConnErr where
  | connectionError (message endpoint : String)
  | otherError (message : String)
deriving Repr, DecidableEq

/-- Endpoint selection of `connect`: a known named endpoint, else a raw
`wss://` URL, else the default `data` endpoint. -/
def chooseEndpoint (options : ConnectionOptions) : String × String :=
  match options.endpoint with
  | some ep =>
    if (ENDPOINTS.map Prod.fst).contains ep then (ep, (mapGet ENDPOINTS ep).getD "")
    else if "wss://".data.isPrefixOf ep.data then ("custom", ep)
    else ("data", "wss://data.tradingview.com/socket.io/websocket")
  | none => ("data", "wss://data.tradingview.com/socket.io/websocket")

/-- The ordered candidate list: the requested endpoint first, then every
other named endpoint once. -/
def endpointsToTry (options : ConnectionOptions) : List (String × String) :=
  let (endpointName, wsUrl) := chooseEndpoint options
  (endpointName, wsUrl) :: ENDPOINTS.filter (fun e => e.1 ≠ endpointName)

/-- The fallback loop of `connect`: try each candidate with the given
attempt oracle (standing for `connectToEndpoint`), remembering the last
error; after the loop, `throw lastError || new Error(...)`. -/
def tryEndpoints {C : Type} (attempt : String × String → Except ConnErr C) :
    List (String × String) → Option ConnErr → Except ConnErr C
  | [], lastError =>
    .error (lastError.getD (.otherError "Failed to connect to any TradingView endpoint"))
  | e :: rest, _lastError =>
    match attempt e with
    | .ok c => .ok c
    | .error err => tryEndpoints attempt rest (some err)

/-- The `connect` function of `src/connection/websocket.ts`, with the network
abstracted into the `attempt` oracle. -/
def connect {C : Type} (attempt : String × String → Except ConnErr C)
    (options : ConnectionOptions) : Except ConnErr C :=
  tryEndpoints attempt (endpointsToTry options) none

/-! ## JSON values (model of the `JSON.stringify` / `JSON.parse` layer)

The frame codec of `src/connection/protocol.ts` serialises commands with
`JSON.stringify({m: name, p: params})` and classifies inbound sub-messages
with `JSON.parse`. The embedding models JSON values with a mutual inductive
(so that all recursion stays structural) and supplies a serialiser and a
parser for them. Restrictions of the model, noted here once: numbers are
integers (the protocol only carries ids and counts), strings escape exactly
`"` and `\` (no control characters or `\u` forms), and no whitespace is
accepted between tokens (none is ever produced by `JSON.stringify`). -/

mutual
/-- A JSON value. String content is carried as a character list. -/
inductive Json where
  | null
  | bool (b : Bool)
  | num (n : Int)
  | str (s : List Char)
  | arr (elems : JsonArr)
  | obj (fields : JsonObj)
/-- A JSON array, as a bespoke list so the mutual recursion is structural. -/
inductive JsonArr where
  | nil
  | cons (hd : Json) (tl : JsonArr)
/-- The field list of a JSON object, in insertion order. -/
inductive JsonObj where
  | nil
  | cons (key : List Char) (val : Json) (tl : JsonObj)
end

/-- Decimal digit character for `d ≤ 9`. -/
def digitChar : Nat → Char
  | 0 => '0' | 1 => '1' | 2 => '2' | 3 => '3' | 4 => '4'
  | 5 => '5' | 6 => '6' | 7 => '7' | 8 => '8' | _ => '9'

/-- Decimal digits of `n`, most significant first (`fuel ≥ n` bounds the
division chain; `natToChars` supplies enough). -/
def natToCharsAux : Nat → Nat → List Char
  | 0, n => [digitChar n]
  | fuel + 1, n =>
    if n < 10 then [digitChar n]
    else natToCharsAux fuel (n / 10) ++ [digitChar (n % 10)]

/-- Decimal representation of a natural number. -/
def natToChars (n : Nat) : List Char :=
  natToCharsAux n n

/-- Decimal representation of an integer: an optional minus sign, then the
digits of the absolute value. -/
def intToChars (i : Int) : List Char :=
  if i < 0 then '-' :: natToChars i.natAbs else natToChars i.natAbs

/-- JSON string escaping as `JSON.stringify` performs it on the characters
the model covers: `"` and `\` get a backslash, everything else is copied. -/
def escChar (c : Char) : List Char :=
  if c = '"' ∨ c = '\\' then ['\\', c] else [c]

/-- Escape a whole string body. -/
def escStr : List Char → List Char
  | [] => []
  | c :: cs => escChar c ++ escStr cs

mutual
/-- Serialise a JSON value, as `JSON.stringify` does (no whitespace, object
fields in insertion order). -/
def strJ : Json → List Char
  | .null => ['n', 'u', 'l', 'l']
  | .num i => intToChars i
  | .bool true => ['t', 'r', 'u', 'e']
  | .str s => '"' :: (escStr s ++ ['"'])
  | .bool false => ['f', 'a', 'l', 's', 'e']
  | .arr a => '[' :: strArrBody a
  | .obj fs => '\x7b' :: strObjBody fs
/-- Array contents including the closing bracket. -/
def strArrBody : JsonArr → List Char
  | .nil => [']']
  | .cons x tl => strJ x ++ strArrTail tl
/-- Array contents after the first element: each further element behind a
comma, then the closing bracket. -/
def strArrTail : JsonArr → List Char
  | .nil => [']']
  | .cons x tl => ',' :: (strJ x ++ strArrTail tl)
/-- Object contents including the closing brace. -/
def strObjBody : JsonObj → List Char
  | .nil => ['\x7d']
  | .cons k v tl => ('"' :: (escStr k ++ ['"', ':'])) ++ (strJ v ++ strObjTail tl)
/-- Object contents after the first field. -/
def strObjTail : JsonObj → List Char
  | .nil => ['\x7d']
  | .cons k v tl => ',' :: (('"' :: (escStr k ++ ['"', ':'])) ++ (strJ v ++ strObjTail tl))
end

/-- Serialise an object value opening with its brace (the `strJ` clause for
objects, split out so `strJ` stays a small match). -/
def strJTop (j : Json) : List Char := strJ j

/-- Unescape one backslash escape (the model covers `\"` and `\\`). -/
def unescapeChar (c : Char) : Option Char :=
  if c = '"' ∨ c = '\\' then some c else none

/-- Parse a JSON string body after the opening quote: characters up to the
unescaped closing quote. -/
def parseStrBody : List Char → Option (List Char × List Char)
  | [] => none
  | '"' :: rest => some ([], rest)
  | '\\' :: rest =>
    match rest with
    | [] => none
    | c :: rest₁ =>
      match unescapeChar c with
      | some u =>
        match parseStrBody rest₁ with
        | some (s, r) => some (u :: s, r)
        | none => none
      | none => none
  | c :: rest =>
    match parseStrBody rest with
    | some (s, r) => some (c :: s, r)
    | none => none

/-- Numeric value of a digit run (most significant first). -/
def digitsToNat (ds : List Char) : Nat :=
  ds.foldl (fun a c => 10 * a + (c.toNat - 48)) 0

/-- Parse a nonempty digit run into its value (maximal munch). -/
def parseNat (cs : List Char) : Option (Nat × List Char) :=
  let ds := cs.takeWhile Char.isDigit
  if ds.isEmpty then none else some (digitsToNat ds, cs.dropWhile Char.isDigit)

mutual
/-- Parse one JSON value (fuel-indexed; `input length + 1` fuel always
suffices). -/
def parseJ : Nat → List Char → Option (Json × List Char)
  | 0, _ => none
  | fuel + 1, cs =>
    match cs with
    | 'n' :: 'u' :: 'l' :: 'l' :: r => some (.null, r)
    | 't' :: 'r' :: 'u' :: 'e' :: r => some (.bool true, r)
    | 'f' :: 'a' :: 'l' :: 's' :: 'e' :: r => some (.bool false, r)
    | '"' :: r =>
      match parseStrBody r with
      | some (s, r₁) => some (.str s, r₁)
      | none => none
    | '[' :: r =>
      match r with
      | ']' :: r₁ => some (.arr .nil, r₁)
      | _ =>
        match parseJ fuel r with
        | some (x, r₁) =>
          match parseArrTail fuel r₁ with
          | some (tl, r₂) => some (.arr (.cons x tl), r₂)
          | none => none
        | none => none
    | '\x7b' :: r =>
      match r with
      | '\x7d' :: r₁ => some (.obj .nil, r₁)
      | _ =>
        match parseObjFields fuel r with
        | some (fs, r₁) => some (.obj fs, r₁)
        | none => none
    | '-' :: r =>
      match parseNat r with
      | some (n, r₁) => some (.num (-(n : Int)), r₁)
      | none => none
    | c :: r =>
      if c.isDigit then
        match parseNat (c :: r) with
        | some (n, r₁) => some (.num (n : Int), r₁)
        | none => none
      else none
    | [] => none
/-- Parse the rest of an array after an element: `]` ends it, `,` demands
another element. -/
def parseArrTail : Nat → List Char → Option (JsonArr × List Char)
  | 0, _ => none
  | fuel + 1, cs =>
    match cs with
    | ']' :: r => some (.nil, r)
    | ',' :: r =>
      match parseJ fuel r with
      | some (x, r₁) =>
        match parseArrTail fuel r₁ with
        | some (tl, r₂) => some (.cons x tl, r₂)
        | none => none
      | none => none
    | _ => none
/-- Parse one or more `"key":value` fields, consuming the closing brace. -/
def parseObjFields : Nat → List Char → Option (JsonObj × List Char)
  | 0, _ => none
  | fuel + 1, cs =>
    match cs with
    | '"' :: r =>
      match parseStrBody r with
      | some (k, r₁) =>
        match r₁ with
        | ':' :: r₂ =>
          match parseJ fuel r₂ with
          | some (v, r₃) =>
            match r₃ with
            | ',' :: r₄ =>
              match parseObjFields fuel r₄ with
              | some (fs, r₅) => some (.cons k v fs, r₅)
              | none => none
            | '\x7d' :: r₄ => some (.cons k v .nil, r₄)
            | _ => none
          | none => none
        | _ => none
      | none => none
    | _ => none
end

/-- JSON.parse on a whole sub-message: the parse must consume the input
exactly. -/
def jsonParse (cs : List Char) : Option Json :=
  match parseJ (cs.length + 1) cs with
  | some (v, []) => some v
  | _ => none

/-! ## Frame codec (`src/connection/protocol.ts`) -/

/-- Wrap a payload in the wire's delimiter: `~m~<length>~m~<payload>`. -/
def wrapFrame (payload : List Char) : List Char :=
  '~' :: 'm' :: '~' :: (natToChars payload.length ++ ('~' :: 'm' :: '~' :: payload))

/-- The envelope `{m: name, p: params}` serialised by `createMessage`. -/
def envelopeJson (name : List Char) (params : JsonArr) : Json :=
  .obj (.cons ['m'] (.str name) (.cons ['p'] (.arr params) .nil))

/-- createMessage: serialise `{m: name, p: params}` and wrap it with the
length-prefixed delimiter. -/
def createMessage (name : List Char) (params : JsonArr) : List Char :=
  wrapFrame (strJ (envelopeJson name params))

/-- Match the delimiter regex `~m~\d+~m~` at the head of the input and
return the rest after it. -/
def matchDelimAt (cs : List Char) : Option (List Char) :=
  match cs with
  | '~' :: 'm' :: '~' :: rest =>
    if (rest.takeWhile Char.isDigit).isEmpty then none
    else
      match rest.dropWhile Char.isDigit with
      | '~' :: 'm' :: '~' :: tail => some tail
      | _ => none
  | _ => none

/-- Does the delimiter pattern occur anywhere in the input? -/
def hasDelim : List Char → Bool
  | [] => false
  | c :: cs => (matchDelimAt (c :: cs)).isSome || hasDelim cs

/-- JavaScript `String.prototype.split` on the delimiter regex (fuel-indexed;
the input length plus one always suffices): pieces between non-overlapping
leftmost matches, separators dropped. -/
def splitDelimAux : Nat → List Char → List Char → List (List Char)
  | 0, cs, acc => [acc.reverse ++ cs]
  | fuel + 1, cs, acc =>
    match matchDelimAt cs with
    | some rest => acc.reverse :: splitDelimAux fuel rest []
    | none =>
      match cs with
      | [] => [acc.reverse]
      | c :: cs₁ => splitDelimAux fuel cs₁ (c :: acc)

/-- Split a raw message on `~m~\d+~m~`. -/
def splitDelim (cs : List Char) : List (List Char) :=
  splitDelimAux (cs.length + 1) cs []

/-- A classified sub-message, `MessagePayload` of `src/types/index.ts`:
`{type: "ping" | "session" | "event", data}`. -/
inductive MessagePayload where
  | ping (data : List Char)
  | session (data : Json)
  | event (data : Json)

/-- Object field access `parsed[key]` as `JSON.parse` builds objects: the
last duplicate of a key wins. -/
def jsObjGet : JsonObj → List Char → Option Json
  | .nil, _ => none
  | .cons k v tl, key =>
    match jsObjGet tl key with
    | some r => some r
    | none => if k = key then some v else none

/-- JavaScript truthiness of a JSON value. -/
def jsTruthy : Json → Bool
  | .null => false
  | .bool b => b
  | .num n => n != 0
  | .str s => !s.isEmpty
  | .arr _ => true
  | .obj _ => true

/-- Truthiness of `parsed["session_id"]`: only objects have the field, and
its value must be truthy. -/
def hasTruthySessionId (j : Json) : Bool :=
  match j with
  | .obj fs =>
    match jsObjGet fs ("session_id".data) with
    | some v => jsTruthy v
    | none => false
  | _ => false

/-- Classify one sub-message, as the body of the `events.map` in
`parseMessage` does: a `~h~` prefix makes a ping (echoing the re-wrapped
frame); otherwise `JSON.parse` runs — a syntax failure propagates, the
field access on a parsed `null` throws a `TypeError`, a truthy
`session_id` makes a session, and everything else an event. -/
def classifySub (event : List Char) : Except JsErrorKind MessagePayload :=
  if event.take 3 = ['~', 'h', '~'] then
    .ok (.ping ('~' :: 'm' :: '~' :: (natToChars event.length ++ ('~' :: 'm' :: '~' :: event))))
  else
    match jsonParse event with
    | none => .error .syntaxError
    | some parsed =>
      match parsed with
      | .null => .error .typeError
      | _ =>
        if hasTruthySessionId parsed then .ok (.session parsed)
        else .ok (.event parsed)

/-- parseMessage: the empty message has no payloads; otherwise split on the
delimiter, drop the leading empty piece (`slice(1)`), and classify each
sub-message, the first thrown exception propagating. -/
def parseMessage (message : List Char) : Except JsErrorKind (List MessagePayload) :=
  if message.length = 0 then .ok []
  else ((splitDelim message).drop 1).mapM classifySub

/-! ## Helper lemmas on the JavaScript map model -/

theorem mapGet_mapSet_self {β : Type} (m : List (String × β)) (k : String) (v : β) :
    mapGet (mapSet m k v) k = some v := by
  induction m with
  | nil => simp [mapGet, mapSet]
  | cons hd tl ih =>
    obtain ⟨k₀, v₀⟩ := hd
    by_cases h : k₀ = k
    · simp [mapGet, mapSet, h]
    · simp [mapGet, mapSet, h, ih]

theorem mapGet_mapSet_ne {β : Type} (m : List (String × β)) (k k' : String) (v : β)
    (h : k' ≠ k) : mapGet (mapSet m k v) k' = mapGet m k' := by
  have hkk : k ≠ k' := fun hh => h hh.symm
  induction m with
  | nil => simp [mapGet, mapSet, hkk]
  | cons hd tl ih =>
    obtain ⟨k₀, v₀⟩ := hd
    by_cases h₀ : k₀ = k
    · subst h₀
      simp [mapGet, mapSet, hkk]
    · simp [mapGet, mapSet, h₀, ih]

/-! ## Claim C3 — dropping of resent candles at zero accumulated count -/

/-- Claim C3 (code bug): on a payload of two candles with batch size `1` and
an empty accumulator, `filterNewCandles` is supposed to drop the last `0`
bars and keep the whole payload — but `slice(0, -0)` is `slice(0, 0)`, so
the code drops every bar of the payload. -/
theorem filterNewCandles_zero_accumulated_drops_payload :
    filterNewCandles [⟨0, [1, 2, 3, 4, 5, 6]⟩, ⟨1, [7, 8, 9, 10, 11, 12]⟩] [] 1 = [] := rfl

/-! ## Claim C9 — validateAmount acceptance range -/

/-- Claim C9: `validateAmount` accepts exactly `undefined` and the integers
`1 ..= 10000`; in particular amounts in `5001 ..= 10000` — above the `5000`
batch cap — are accepted, capped to a `5000` batch, and make the state
machine request another page once a full `5000`-bar batch has
accumulated. -/
theorem validateAmount_accepts_iff :
    (∀ a : JsAmount, validateAmount a = .ok () ↔
      (a = .undef ∨ ∃ n : Int, a = .num (n : Rat) ∧ 1 ≤ n ∧ n ≤ 10000)) ∧
    (∀ n : Nat, 5000 < n → n ≤ 10000 →
      validateAmount (.num (n : Rat)) = .ok () ∧
      calculateBatchSize (some n) = MAX_BATCH_SIZE ∧
      shouldRequestMoreData MAX_BATCH_SIZE (some n) = true) := by
  constructor
  · intro a
    cases a with
    | undef => simp [validateAmount]
    | notNum => simp [validateAmount]
    | num q =>
      simp only [validateAmount]
      constructor
      · intro h
        split at h
        · exact absurd h (by simp)
        · split at h
          · exact absurd h (by simp)
          · split at h
            · exact absurd h (by simp)
            · rename_i hden hpos hmax
              rw [not_ne_iff] at hden
              refine Or.inr
                ⟨q.num, congrArg JsAmount.num ((Rat.den_eq_one_iff q).mp hden).symm, ?_, ?_⟩
              · have : (0 : Rat) < q := lt_of_not_ge hpos
                rw [← (Rat.den_eq_one_iff q).mp hden] at this
                exact_mod_cast this
              · have : q ≤ (10000 : Rat) := le_of_not_gt hmax
                rw [← (Rat.den_eq_one_iff q).mp hden] at this
                exact_mod_cast this
      · rintro (h | ⟨n, heq, h1, h2⟩)
        · exact absurd h (by simp)
        · obtain rfl : q = (n : Rat) := by injection heq
          have hden : ((n : Rat)).den = 1 := Rat.den_intCast n
          have hpos : ¬((n : Rat) ≤ 0) := by
            rw [not_le]
            exact_mod_cast lt_of_lt_of_le Int.zero_lt_one h1
          have hmax : ¬((10000 : Rat) < (n : Rat)) := by
            rw [not_lt]
            exact_mod_cast h2
          simp [hden, hpos, hmax]
  · intro n h5 h10
    refine ⟨?_, ?_, ?_⟩
    · have hden : ((n : Rat)).den = 1 := by
        rw [show ((n : Rat)) = ((n : Int) : Rat) by push_cast; ring]
        exact Rat.den_intCast n
      have hpos : ¬((n : Rat) ≤ 0) := by
        rw [not_le]
        exact_mod_cast Nat.lt_of_lt_of_le (by norm_num) (Nat.le_of_lt h5)
      have hmax : ¬((10000 : Rat) < (n : Rat)) := by
        rw [not_lt]
        exact_mod_cast h10
      simp [validateAmount, hden, hpos, hmax]
    · have : ¬(n < MAX_BATCH_SIZE) := by
        rw [MAX_BATCH_SIZE]; omega
      simp [calculateBatchSize, jsAmtTruthy, this, (by omega : n ≠ 0)]
    · simp [shouldRequestMoreData, jsAmtTruthy, MAX_BATCH_SIZE, (by omega : n ≠ 0)]
      omega

/-- Witness for C9 at concrete inputs: `6000` is accepted (it exceeds the
batch cap), and the state machine pages after `5000` bars. -/
theorem validateAmount_accepts_iff_witness :
    validateAmount (.num (6000 : Rat)) = .ok () ∧
    calculateBatchSize (some 6000) = MAX_BATCH_SIZE ∧
    shouldRequestMoreData MAX_BATCH_SIZE (some 6000) = true :=
  validateAmount_accepts_iff.2 6000 (by norm_num) (by norm_num)

/-! ## Claim C10 — events with unmapped sessions are ignored -/

/-- Claim C10: when the session id of an event has no entry in the
session → symbol map, `handleTimescaleUpdate` returns the states untouched
(and throws nothing), and `handleSeriesEvent` mutates no state, sends no
command, invokes no completion callback, and reports no completion. -/
theorem handlers_ignore_unmapped_sessions (ctx : HandlerCtx)
    (states : List (String × SymbolState)) (ev : TvEvent)
    (h : mapGet ctx.sessionMap ev.sessionId = none) :
    handleTimescaleUpdate ctx states ev = .ok states ∧
    handleSeriesEvent ctx states ev = ⟨false, states, [], none⟩ := by
  constructor
  · simp [handleTimescaleUpdate, h, jsStrFalsy]
  · simp [handleSeriesEvent, h, jsStrFalsy]

/-- Witness for C10: a `timescale_update` and a `symbol_error` for a session
that was never registered leave a one-symbol state table untouched. -/
theorem handlers_ignore_unmapped_sessions_witness :
    handleTimescaleUpdate ⟨[("cs_1", "A")], 5000, none⟩ [("A", freshSymbolState)]
        ⟨"timescale_update", "cs_unknown", none⟩ = .ok [("A", freshSymbolState)] ∧
    handleSeriesEvent ⟨[("cs_1", "A")], 5000, none⟩ [("A", freshSymbolState)]
        ⟨"symbol_error", "cs_unknown", none⟩ = ⟨false, [("A", freshSymbolState)], [], none⟩ :=
  ⟨(handlers_ignore_unmapped_sessions ⟨[("cs_1", "A")], 5000, none⟩ [("A", freshSymbolState)]
      ⟨"timescale_update", "cs_unknown", none⟩ rfl).1,
   (handlers_ignore_unmapped_sessions ⟨[("cs_1", "A")], 5000, none⟩ [("A", freshSymbolState)]
      ⟨"symbol_error", "cs_unknown", none⟩ rfl).2⟩

/-! ## Claim C2 — pagination condition of the series-event handler -/

/-- The batch size as the specification words it: `min(requested amount,
5000)` when an amount is given, else the maximum. Stated separately from
`calculateBatchSize` so claim C2 can be phrased in the spec's terms. -/
def specBatchSize (amt : Option Nat) : Nat :=
  match amt with
  | none => MAX_BATCH_SIZE
  | some a => min a MAX_BATCH_SIZE

/-- Helper: propositional form of `shouldRequestMoreData` for a nonzero
amount. -/
theorem shouldRequestMoreData_some_iff (c a : Nat) (ha : a ≠ 0) :
    shouldRequestMoreData c (some a) = true ↔
      (0 < c ∧ c % MAX_BATCH_SIZE = 0 ∧ c < a) := by
  simp [shouldRequestMoreData, jsAmtTruthy, ha, and_assoc]

/-- Helper: for a positive amount, testing divisibility by `MAX_BATCH_SIZE`
(as the code does) and by `min(amount, 5000)` (as the spec says) agree on
counts below the amount: below the cap both conjunctions are false, above
it the two moduli coincide. -/
theorem mod_max_iff_mod_min (c a : Nat) :
    (0 < c ∧ c % MAX_BATCH_SIZE = 0 ∧ c < a) ↔
      (0 < c ∧ c % min a MAX_BATCH_SIZE = 0 ∧ c < a) := by
  by_cases hcase : a < MAX_BATCH_SIZE
  · constructor
    · rintro ⟨h1, h2, h3⟩
      exfalso
      have h4 := Nat.le_of_dvd h1 (Nat.dvd_of_mod_eq_zero h2)
      rw [MAX_BATCH_SIZE] at h4 hcase
      omega
    · rintro ⟨h1, h2, h3⟩
      exfalso
      rw [Nat.min_eq_left (le_of_lt hcase)] at h2
      have h4 := Nat.le_of_dvd h1 (Nat.dvd_of_mod_eq_zero h2)
      omega
  · rw [Nat.min_eq_right (le_of_not_lt hcase)]

/-- Helper: `shouldRequestMoreData` against the spec-side batch size, for
validated amounts. -/
theorem shouldRequestMoreData_iff_spec (c : Nat) (amt : Option Nat)
    (hv : amt = none ∨ ∃ a, amt = some a ∧ 1 ≤ a) :
    shouldRequestMoreData c amt = true ↔
      (0 < c ∧ c % specBatchSize amt = 0 ∧ (amt = none ∨ c < amt.getD 0)) := by
  rcases hv with rfl | ⟨a, rfl, ha⟩
  · simp [shouldRequestMoreData, specBatchSize, jsAmtTruthy, and_assoc]
  · rw [shouldRequestMoreData_some_iff c a (by omega), mod_max_iff_mod_min]
    simp [specBatchSize]

/-- Claim C2: on a completion or symbol-error event for a mapped,
not-yet-completed symbol, `handleSeriesEvent` issues `request_more_data`
and leaves the state machine non-terminal exactly when the accumulated
count is positive, a multiple of the batch size `min(amount, 5000)`
(`5000` without an amount), and below the requested amount (or no amount
was requested); in every other case it transitions the symbol to a
terminal state (completed, with the error flag for `symbol_error`) and
sends nothing. -/
theorem handleSeriesEvent_requests_more_iff (ctx : HandlerCtx)
    (states : List (String × SymbolState)) (ev : TvEvent) (sym : String) (st : SymbolState)
    (hmap : mapGet ctx.sessionMap ev.sessionId = some sym) (hne : sym ≠ "")
    (hst : mapGet states sym = some st) (hnc : st.completed = false)
    (hv : ctx.requestedAmount = none ∨ ∃ a, ctx.requestedAmount = some a ∧ 1 ≤ a) :
    (handleSeriesEvent ctx states ev =
        ⟨false, states, [.requestMoreData ev.sessionId "sds_1" ctx.batchSize], none⟩ ↔
      (0 < st.candles.length ∧
        st.candles.length % specBatchSize ctx.requestedAmount = 0 ∧
        (ctx.requestedAmount = none ∨ st.candles.length < ctx.requestedAmount.getD 0))) ∧
    (¬(0 < st.candles.length ∧
        st.candles.length % specBatchSize ctx.requestedAmount = 0 ∧
        (ctx.requestedAmount = none ∨ st.candles.length < ctx.requestedAmount.getD 0)) →
      (handleSeriesEvent ctx states ev).completed = true ∧
      mapGet (handleSeriesEvent ctx states ev).states sym =
        some { st with completed := true, error := ev.name == "symbol_error" } ∧
      (handleSeriesEvent ctx states ev).sent = []) := by
  have hfalsy : jsStrFalsy (some sym) = false := by
    simp only [jsStrFalsy]
    exact Bool.eq_false_iff.mpr (fun hh => hne ((String.isEmpty_iff sym).mp hh))
  have hcond := shouldRequestMoreData_iff_spec st.candles.length ctx.requestedAmount hv
  constructor
  · constructor
    · intro h
      rw [← hcond]
      by_contra hfalse
      rw [Bool.not_eq_true] at hfalse
      simp only [handleSeriesEvent, hfalsy, Bool.false_eq_true, if_false, hmap,
        Option.getD_some, hst, hnc, hfalse] at h
      exact absurd (congrArg SeriesEventResult.completed h) (by simp)
    · intro h
      rw [← hcond] at h
      simp [handleSeriesEvent, hfalsy, hmap, hst, hnc, h]
  · intro h
    rw [← hcond] at h
    rw [Bool.not_eq_true] at h
    simp only [handleSeriesEvent, hfalsy, Bool.false_eq_true, if_false, hmap,
      Option.getD_some, hst, hnc, h]
    refine ⟨trivial, ?_, trivial⟩
    simp only [markSymbolCompleted, hst]
    exact mapGet_mapSet_self states sym _

/-- Witness for C2, both branches at concrete inputs: with `7000` requested
and `5000` bars accumulated the handler pages on; with `3` requested and
`3` accumulated it completes the symbol. -/
theorem handleSeriesEvent_requests_more_iff_witness :
    (handleSeriesEvent ⟨[("cs_1", "A")], 5000, some 7000⟩
        [("A", ⟨List.replicate 5000 ⟨0, []⟩, false, false⟩)] ⟨"series_completed", "cs_1", none⟩ =
      ⟨false, [("A", ⟨List.replicate 5000 ⟨0, []⟩, false, false⟩)],
        [.requestMoreData "cs_1" "sds_1" 5000], none⟩) ∧
    (handleSeriesEvent ⟨[("cs_1", "A")], 3, some 3⟩
        [("A", ⟨List.replicate 3 ⟨0, []⟩, false, false⟩)]
        ⟨"symbol_error", "cs_1", none⟩).completed = true := by
  constructor
  · exact ((handleSeriesEvent_requests_more_iff ⟨[("cs_1", "A")], 5000, some 7000⟩
      [("A", ⟨List.replicate 5000 ⟨0, []⟩, false, false⟩)] ⟨"series_completed", "cs_1", none⟩
      "A" ⟨List.replicate 5000 ⟨0, []⟩, false, false⟩ rfl (by decide) rfl rfl
      (Or.inr ⟨7000, rfl, by norm_num⟩)).1).mpr
      (by
        refine ⟨by simp only [List.length_replicate]; norm_num, ?_,
          Or.inr (by simp only [List.length_replicate, Option.getD_some]; norm_num)⟩
        simp only [List.length_replicate, specBatchSize, MAX_BATCH_SIZE]
        norm_num)
  · exact (((handleSeriesEvent_requests_more_iff ⟨[("cs_1", "A")], 3, some 3⟩
      [("A", ⟨List.replicate 3 ⟨0, []⟩, false, false⟩)] ⟨"symbol_error", "cs_1", none⟩
      "A" ⟨List.replicate 3 ⟨0, []⟩, false, false⟩ rfl (by decide) rfl rfl
      (Or.inr ⟨3, rfl, by norm_num⟩)).2
      (by
        rintro ⟨h1, h2, h3 | h3⟩
        · simp at h3
        · simp only [List.length_replicate, Option.getD_some] at h3
          omega)).1)

/-! ## Claim C7 — endpoint fallback and the error it surfaces -/

/-- Counterexample for C7: when every candidate endpoint fails, `connect`
rethrows the last underlying error itself — here a plain socket error named
after the endpoint — and not a `ConnectionError`. -/
theorem connect_all_fail_not_connectionError :
    (connect (fun e => .error (.otherError e.1)) ⟨none⟩ : Except ConnErr Unit) =
      .error (.otherError "widgetdata") ∧
    ∀ (m ep : String), ConnErr.otherError "widgetdata" ≠ .connectionError m ep :=
  ⟨rfl, fun _ _ h => ConnErr.noConfusion h⟩

/-- Helper: the fallback loop over an all-failing candidate list ends with
the error of the last candidate. -/
theorem tryEndpoints_all_fail {C : Type} (attempt : String × String → Except ConnErr C)
    (g : String × String → ConnErr) :
    ∀ (l : List (String × String)) (acc : Option ConnErr) (last : String × String),
      (∀ e ∈ l, attempt e = .error (g e)) → l.getLast? = some last →
      tryEndpoints attempt l acc = .error (g last) := by
  intro l
  induction l with
  | nil =>
    intro acc last _ hlast
    exact absurd hlast (by simp)
  | cons e rest ih =>
    intro acc last hfail hlast
    have he := hfail e (by simp)
    cases rest with
    | nil =>
      simp only [List.getLast?_singleton, Option.some.injEq] at hlast
      subst hlast
      simp [tryEndpoints, he]
    | cons e₁ rest₁ =>
      rw [List.getLast?_cons_cons] at hlast
      simp only [tryEndpoints, he]
      exact ih (some (g e)) last (fun x hx => hfail x (by simp [hx])) hlast

/-- Claim C7 (amended): if every candidate in the fallback list fails,
`connect` fails only after exhausting all of them, and the error it throws
is the last candidate's underlying error itself (`throw lastError`), not a
`ConnectionError` wrapper. -/
theorem connect_exhaustion_throws_last_cause {C : Type}
    (attempt : String × String → Except ConnErr C) (options : ConnectionOptions)
    (g : String × String → ConnErr) (last : String × String)
    (hfail : ∀ e ∈ endpointsToTry options, attempt e = .error (g e))
    (hlast : (endpointsToTry options).getLast? = some last) :
    connect attempt options = .error (g last) :=
  tryEndpoints_all_fail attempt g (endpointsToTry options) none last hfail hlast

/-- Witness for C7: all four candidates fail with endpoint-named socket
errors; the default options try `data` first and `widgetdata` last, whose
error surfaces. -/
theorem connect_exhaustion_throws_last_cause_witness :
    (connect (fun e => .error (.otherError e.1)) ⟨none⟩ : Except ConnErr Unit) =
      .error (.otherError "widgetdata") :=
  connect_exhaustion_throws_last_cause (fun e => .error (.otherError e.1)) ⟨none⟩
    (fun e => .otherError e.1) ("widgetdata", "wss://widgetdata.tradingview.com/socket.io/websocket")
    (fun _ _ => rfl) rfl

/-! ## Claim C4 — symbol_error with zero accumulated bars -/

/-- Counterexample for C4: a single `symbol_error` event with zero
accumulated bars makes the concurrent retrieval `resolve` with an empty bar
list in the symbol's slot — the promise is not rejected, with a `DataError`
or anything else. -/
theorem concRun_symbol_error_resolves_not_rejects :
    (concRun ["AAPL"] ["cs_0"] (some 50) [cmplEvent "symbol_error" "cs_0"]).outcome =
      some (.resolved [some []]) ∧
    ∀ err : JsErrorKind, some (ConcOutcome.resolved [some []]) ≠ some (.rejected err) :=
  ⟨rfl, fun _ h => ConcOutcome.noConfusion (Option.some.inj h)⟩

/-- Claim C4 (amended): a `symbol_error` arriving for a symbol with zero
accumulated bars marks that symbol completed-with-error and the retrieval
resolves with an empty bar list at its slot; no rejection happens. -/
theorem concRun_symbol_error_zero_bars (sym sid : String) (amount : Option Nat)
    (hne : sym ≠ "") :
    (concRun [sym] [sid] amount [cmplEvent "symbol_error" sid]).outcome =
      some (.resolved [some []]) ∧
    mapGet (concRun [sym] [sid] amount [cmplEvent "symbol_error" sid]).symbolStates sym =
      some ⟨[], true, true⟩ := by
  have hfalsy : jsStrFalsy (some sym) = false := by
    simp only [jsStrFalsy]
    exact Bool.eq_false_iff.mpr (fun hh => hne ((String.isEmpty_iff sym).mp hh))
  have htake : (if jsAmtTruthy amount then List.take (amount.getD 0) [] else []) =
      ([] : List RawCandle) := by
    cases jsAmtTruthy amount <;> simp
  constructor
  · simp [concRun, concInit, cmplEvent, concStep, concSeries, hfalsy, htake,
      shouldRequestMoreInline, freshSymbolState, mapGet, mapSet, settle,
      List.indexOf, processCandles, List.set, List.findIdx_cons, beq_self_eq_true]
  · simp [concRun, concInit, cmplEvent, concStep, concSeries, hfalsy, htake,
      shouldRequestMoreInline, freshSymbolState, mapGet, mapSet, settle,
      List.indexOf, processCandles, List.set, List.findIdx_cons, beq_self_eq_true]

/-- Witness for the amended C4 statement at symbol `MSFT`. -/
theorem concRun_symbol_error_zero_bars_witness :
    (concRun ["MSFT"] ["cs_1"] (some 25) [cmplEvent "symbol_error" "cs_1"]).outcome =
      some (.resolved [some []]) ∧
    mapGet (concRun ["MSFT"] ["cs_1"] (some 25)
        [cmplEvent "symbol_error" "cs_1"]).symbolStates "MSFT" =
      some ⟨[], true, true⟩ :=
  concRun_symbol_error_zero_bars "MSFT" "cs_1" (some 25) (by decide)

/-! ## Claim C5 — mid-stream failure versus the pending queue -/

/-- Counterexample for C5: symbol `A` completes with one candle (queued for
yielding), then a malformed `timescale_update` for symbol `B` raises
mid-stream before the consumer wakes up. When the generator resumes, its
loop exits on `hasError` and throws at once: the failure is raised with
`A`'s result still sitting in the pending queue, and nothing is ever
yielded — not "after any already-queued results have been delivered". -/
theorem candleStream_error_discards_pending_queue :
    (let ctx : HandlerCtx := ⟨[("cs_A", "A"), ("cs_B", "B")], 5000, none⟩
     let st₄ :=
       streamEvent ctx
         (streamEvent ctx
           (streamEvent ctx (consumerStep (streamInit ["A", "B"]))
             (updEvent "cs_A" [⟨0, [1, 2, 3, 4, 5, 6]⟩]))
           (cmplEvent "series_completed" "cs_A"))
         ⟨"timescale_update", "cs_B", none⟩
     let final := consumerStep st₄
     st₄.pendingYields = [("A", [processCandle ⟨0, [1, 2, 3, 4, 5, 6]⟩])] ∧
       st₄.hasError = true ∧
       final.finished = some (some "TypeError") ∧
       final.yielded = []) :=
  ⟨rfl, rfl, rfl, rfl⟩

/-- Claim C5 (amended): a mid-stream failure terminates the sequence with
that failure immediately: the moment the generator resumes with `hasError`
set, it raises the recorded message and yields nothing further, discarding
whatever results are still in the pending queue (the queue is drained only
on error-free completion). -/
theorem consumerStep_error_raises_without_draining (st : StreamState) (m : String)
    (hfin : st.finished = none) (herr : st.hasError = true)
    (hmsg : st.errorMessage = some m) (hm : m ≠ "") :
    consumerStep st = streamCleanup { st with finished := some (some m) } ∧
    (consumerStep st).yielded = st.yielded := by
  have htruthy : errMsgTruthy (some m) = true := by
    simp only [errMsgTruthy, Bool.not_eq_true']
    exact Bool.eq_false_iff.mpr (fun hh => hm ((String.isEmpty_iff m).mp hh))
  have hstep : consumerStep st = streamCleanup { st with finished := some (some m) } := by
    simp [consumerStep, hfin, herr, hmsg, htruthy]
  exact ⟨hstep, by rw [hstep]; simp [streamCleanup]⟩

/-- Witness for C5's amended claim at a concrete state: one symbol still
outstanding, one queued result, an error recorded — the step raises the
error and yields nothing. -/
theorem consumerStep_error_raises_without_draining_witness :
    consumerStep ⟨[], [("A", [])], 1, true, some "boom", false, [], none⟩ =
      streamCleanup ⟨[], [("A", [])], 1, true, some "boom", false, [], some (some "boom")⟩ ∧
    (consumerStep ⟨[], [("A", [])], 1, true, some "boom", false, [], none⟩).yielded = [] :=
  consumerStep_error_raises_without_draining
    ⟨[], [("A", [])], 1, true, some "boom", false, [], none⟩ "boom" rfl rfl rfl (by decide)

/-! ## Round-trip lemmas for the number layer -/

/-- A remainder that cannot extend a digit run: empty or headed by a
non-digit. Every position following a JSON number in serialised output
(`,`, `]`, `}`, end of input) qualifies. -/
def headNotDigit : List Char → Bool
  | [] => true
  | c :: _ => !c.isDigit

theorem digitChar_isDigit (d : Nat) : (digitChar d).isDigit = true := by
  match d with
  | 0 | 1 | 2 | 3 | 4 | 5 | 6 | 7 | 8 => decide
  | n + 9 => exact rfl

theorem digitChar_val (d : Nat) (h : d < 10) : (digitChar d).toNat - 48 = d := by
  match d, h with
  | 0, _ | 1, _ | 2, _ | 3, _ | 4, _ | 5, _ | 6, _ | 7, _ | 8, _ | 9, _ => decide
  | n + 10, h => exact absurd h (by omega)

theorem natToCharsAux_digits (fuel n : Nat) :
    ∀ c ∈ natToCharsAux fuel n, c.isDigit = true := by
  induction fuel generalizing n with
  | zero =>
    intro c hc
    simp only [natToCharsAux, List.mem_singleton] at hc
    subst hc
    exact digitChar_isDigit n
  | succ fuel ih =>
    intro c hc
    simp only [natToCharsAux] at hc
    by_cases h : n < 10
    · rw [if_pos h] at hc
      simp only [List.mem_singleton] at hc
      subst hc
      exact digitChar_isDigit n
    · rw [if_neg h, List.mem_append] at hc
      rcases hc with hc | hc
      · exact ih (n / 10) c hc
      · simp only [List.mem_singleton] at hc
        subst hc
        exact digitChar_isDigit (n % 10)

theorem natToCharsAux_ne_nil (fuel n : Nat) : natToCharsAux fuel n ≠ [] := by
  cases fuel with
  | zero => simp [natToCharsAux]
  | succ fuel =>
    simp only [natToCharsAux]
    by_cases h : n < 10
    · simp [h]
    · simp [h]

theorem digitsToNat_append_digit (xs : List Char) (c : Char) :
    digitsToNat (xs ++ [c]) = 10 * digitsToNat xs + (c.toNat - 48) := by
  simp [digitsToNat, List.foldl_append]

theorem digitsToNat_natToCharsAux (fuel n : Nat) (h : n ≤ fuel) :
    digitsToNat (natToCharsAux fuel n) = n := by
  induction fuel generalizing n with
  | zero =>
    have h0 : n = 0 := by omega
    subst h0
    simp only [natToCharsAux, digitsToNat, List.foldl_cons, List.foldl_nil]
    decide
  | succ fuel ih =>
    simp only [natToCharsAux]
    by_cases hn : n < 10
    · rw [if_pos hn]
      simp only [digitsToNat, List.foldl_cons, List.foldl_nil]
      simpa using digitChar_val n hn
    · rw [if_neg hn, digitsToNat_append_digit]
      rw [ih (n / 10) (by omega), digitChar_val (n % 10) (Nat.mod_lt n (by omega))]
      omega

theorem takeWhile_digits_append (ds rest : List Char)
    (hds : ∀ c ∈ ds, c.isDigit = true) (hrest : headNotDigit rest = true) :
    (ds ++ rest).takeWhile Char.isDigit = ds ∧
      (ds ++ rest).dropWhile Char.isDigit = rest := by
  induction ds with
  | nil =>
    simp only [List.nil_append]
    cases rest with
    | nil => simp
    | cons c cs =>
      simp only [headNotDigit, Bool.not_eq_true'] at hrest
      simp [List.takeWhile_cons, List.dropWhile_cons, hrest]
  | cons d ds ih =>
    have hd : d.isDigit = true := hds d (by simp)
    have ihh := ih (fun c hc => hds c (by simp [hc]))
    simp [List.takeWhile_cons, List.dropWhile_cons, hd, ihh.1, ihh.2]

theorem parseNat_natToChars (n : Nat) (rest : List Char)
    (hrest : headNotDigit rest = true) :
    parseNat (natToChars n ++ rest) = some (n, rest) := by
  have h := takeWhile_digits_append (natToChars n) rest
    (natToCharsAux_digits n n) hrest
  simp only [parseNat, h.1, h.2]
  rw [if_neg (by simp [natToChars, natToCharsAux_ne_nil])]
  rw [natToChars, digitsToNat_natToCharsAux n n (Nat.le_refl n)]

/-! ## Round-trip lemmas for the string layer -/

theorem parseStrBody_escStr (s : List Char) (rest : List Char) :
    parseStrBody (escStr s ++ ('"' :: rest)) = some (s, rest) := by
  induction s with
  | nil => simp [escStr, parseStrBody]
  | cons c cs ih =>
    by_cases hc : c = '"' ∨ c = '\\'
    · have hesc : escChar c = ['\\', c] := by simp [escChar, hc]
      have hun : unescapeChar c = some c := by simp [unescapeChar, hc]
      simp only [escStr, hesc, List.cons_append, List.append_assoc]
      simp [parseStrBody, hun, ih]
    · have hesc : escChar c = [c] := by simp [escChar, hc]
      push_neg at hc
      simp only [escStr, hesc, List.cons_append, List.append_assoc]
      rw [parseStrBody.eq_def]
      simp only [List.nil_append]
      split
      · rename_i heq
        exact absurd heq (by simp)
      · rename_i heq
        exact absurd (List.cons.inj heq).1 hc.1
      · rename_i heq
        exact absurd (List.cons.inj heq).1 hc.2
      · rename_i c₁ rest₁ heq
        obtain ⟨rfl, rfl⟩ := List.cons.inj heq
        simp [ih]

/-! ## Head and length facts about serialised values -/

theorem isDigit_ne_lit {c : Char} (h : c.isDigit = true) :
    c ≠ 'n' ∧ c ≠ 't' ∧ c ≠ 'f' ∧ c ≠ '"' ∧ c ≠ '[' ∧ c ≠ '\x7b' ∧ c ≠ '-' ∧ c ≠ ']' := by
  refine ⟨?_, ?_, ?_, ?_, ?_, ?_, ?_, ?_⟩ <;> (intro hh; subst hh; exact absurd h (by decide))

theorem natToChars_cons_digit (n : Nat) :
    ∃ c t, natToChars n = c :: t ∧ c.isDigit = true := by
  cases h : natToChars n with
  | nil =>
    rw [natToChars] at h
    exact absurd h (natToCharsAux_ne_nil n n)
  | cons c t =>
    refine ⟨c, t, rfl, ?_⟩
    have : c ∈ natToChars n := by simp [h]
    rw [natToChars] at this
    exact natToCharsAux_digits n n c this

theorem parseJ_digit_head (fuel : Nat) (c : Char) (t : List Char) (hc : c.isDigit = true) :
    parseJ (fuel + 1) (c :: t) =
      (match parseNat (c :: t) with
       | some (n, r₁) => some (.num (n : Int), r₁)
       | none => none) := by
  obtain ⟨hn, ht, hf, hq, hbk, hbc, hm, _⟩ := isDigit_ne_lit hc
  simp only [parseJ]
  split
  · rename_i heq
    exact absurd (List.cons.inj heq).1 hn
  · rename_i heq
    exact absurd (List.cons.inj heq).1 ht
  · rename_i heq
    exact absurd (List.cons.inj heq).1 hf
  · rename_i heq
    exact absurd (List.cons.inj heq).1 hq
  · rename_i heq
    exact absurd (List.cons.inj heq).1 hbk
  · rename_i heq
    exact absurd (List.cons.inj heq).1 hbc
  · rename_i heq
    exact absurd (List.cons.inj heq).1 hm
  · rename_i c₁ r heq
    obtain ⟨rfl, rfl⟩ := List.cons.inj heq
    simp [hc]
  · rename_i heq
    exact List.noConfusion heq

theorem parseJ_intToChars (fuel : Nat) (i : Int) (rest : List Char)
    (hrest : headNotDigit rest = true) :
    parseJ (fuel + 1) (intToChars i ++ rest) = some (.num i, rest) := by
  by_cases hi : i < 0
  · simp only [intToChars, if_pos hi, List.cons_append]
    simp only [parseJ]
    rw [parseNat_natToChars i.natAbs rest hrest]
    have hcast : -(i.natAbs : Int) = i := by omega
    exact congrArg (fun z : Int => some (Json.num z, rest)) hcast
  · obtain ⟨c, t, hct, hc⟩ := natToChars_cons_digit i.natAbs
    simp only [intToChars, if_neg hi]
    rw [hct, List.cons_append, parseJ_digit_head fuel c (t ++ rest) hc,
      ← List.cons_append, ← hct, parseNat_natToChars i.natAbs rest hrest]
    have hcast : (i.natAbs : Int) = i := by omega
    exact congrArg (fun z : Int => some (Json.num z, rest)) hcast

theorem strJ_head_ne_rbracket (v : Json) : ∃ c t, strJ v = c :: t ∧ c ≠ ']' := by
  cases v with
  | null => exact ⟨'n', _, rfl, by decide⟩
  | bool b =>
    cases b with
    | true => exact ⟨'t', _, rfl, by decide⟩
    | false => exact ⟨'f', _, rfl, by decide⟩
  | str s => exact ⟨'"', _, rfl, by decide⟩
  | arr a => exact ⟨'[', _, rfl, by decide⟩
  | obj fs => exact ⟨'\x7b', _, rfl, by decide⟩
  | num i =>
    by_cases hi : i < 0
    · refine ⟨'-', natToChars i.natAbs, ?_, by decide⟩
      simp [strJ, intToChars, hi]
    · obtain ⟨c, t, hct, hc⟩ := natToChars_cons_digit i.natAbs
      refine ⟨c, t, ?_, (isDigit_ne_lit hc).2.2.2.2.2.2.2⟩
      simp [strJ, intToChars, hi, hct]

theorem strJ_length_pos (v : Json) : 1 ≤ (strJ v).length := by
  obtain ⟨c, t, hct, _⟩ := strJ_head_ne_rbracket v
  simp [hct]

theorem strArrTail_length_pos (a : JsonArr) : 1 ≤ (strArrTail a).length := by
  cases a <;> simp [strArrTail]

theorem strObjTail_length_pos (fs : JsonObj) : 1 ≤ (strObjTail fs).length := by
  cases fs <;> simp [strObjTail]

theorem headNotDigit_strArrTail (a : JsonArr) (rest : List Char) :
    headNotDigit (strArrTail a ++ rest) = true := by
  cases a <;> simp [strArrTail, headNotDigit]

theorem headNotDigit_strObjTail (fs : JsonObj) (rest : List Char) :
    headNotDigit (strObjTail fs ++ rest) = true := by
  cases fs <;> simp [strObjTail, headNotDigit]

/-! ## Round trip of the serialiser and the parser -/

theorem parseJ_arr_cons (fuel : Nat) (x : Json) (tl : JsonArr) (rest : List Char) :
    parseJ (fuel + 1) ('[' :: (strJ x ++ (strArrTail tl ++ rest))) =
      (match parseJ fuel (strJ x ++ (strArrTail tl ++ rest)) with
       | some (y, r₁) =>
         match parseArrTail fuel r₁ with
         | some (tl₁, r₂) => some (.arr (.cons y tl₁), r₂)
         | none => none
       | none => none) := by
  obtain ⟨c, t, hct, hkc⟩ := strJ_head_ne_rbracket x
  rw [hct, List.cons_append]
  simp only [parseJ]
  split
  · rename_i heq
    exact absurd (List.cons.inj heq).1 hkc
  · rw [← List.cons_append, ← hct]

theorem parseJ_obj_cons (fuel : Nat) (k : List Char) (v : Json) (tl : JsonObj)
    (rest : List Char) :
    parseJ (fuel + 1) ('\x7b' :: (strObjBody (.cons k v tl) ++ rest)) =
      (match parseObjFields fuel (strObjBody (.cons k v tl) ++ rest) with
       | some (fs, r₁) => some (.obj fs, r₁)
       | none => none) := by
  have hbody : strObjBody (.cons k v tl) ++ rest
      = '"' :: ((escStr k ++ ['"', ':']) ++ ((strJ v ++ strObjTail tl) ++ rest)) := by
    simp [strObjBody]
  rw [hbody]
  simp only [parseJ]
  split
  · rename_i heq
    exact absurd (List.cons.inj heq).1 (by decide)
  · rfl

mutual

theorem rt_strJ : ∀ (v : Json) (fuel : Nat) (rest : List Char),
    (strJ v).length ≤ fuel → headNotDigit rest = true →
    parseJ fuel (strJ v ++ rest) = some (v, rest)
  | .null, fuel, rest, hf, _hr => by
    cases fuel with
    | zero => simp [strJ] at hf
    | succ f => simp [strJ, parseJ]
  | .bool true, fuel, rest, hf, _hr => by
    cases fuel with
    | zero => simp [strJ] at hf
    | succ f => simp [strJ, parseJ]
  | .bool false, fuel, rest, hf, _hr => by
    cases fuel with
    | zero => simp [strJ] at hf
    | succ f => simp [strJ, parseJ]
  | .num i, fuel, rest, hf, hr => by
    cases fuel with
    | zero =>
      have hp := strJ_length_pos (.num i)
      omega
    | succ f =>
      have hint : strJ (.num i) = intToChars i := rfl
      rw [hint, parseJ_intToChars f i rest hr]
  | .str s, fuel, rest, hf, hr => by
    cases fuel with
    | zero =>
      have hp := strJ_length_pos (.str s)
      omega
    | succ f =>
      have harg : strJ (.str s) ++ rest = '"' :: (escStr s ++ ('"' :: rest)) := by
        simp [strJ]
      rw [harg]
      simp [parseJ, parseStrBody_escStr]
  | .arr .nil, fuel, rest, hf, _hr => by
    cases fuel with
    | zero => simp [strJ, strArrBody] at hf
    | succ f => simp [strJ, strArrBody, parseJ]
  | .arr (.cons x tl), fuel, rest, hf, hr => by
    cases fuel with
    | zero =>
      have hp := strJ_length_pos (.arr (.cons x tl))
      omega
    | succ f =>
      have harg : strJ (.arr (.cons x tl)) ++ rest
          = '[' :: (strJ x ++ (strArrTail tl ++ rest)) := by
        simp [strJ, strArrBody]
      have hlen : 1 + (strJ x).length + (strArrTail tl).length ≤ f + 1 := by
        simp only [strJ, strArrBody, List.length_cons, List.length_append] at hf
        omega
      have hx : (strJ x).length ≤ f := by
        have h1 := strArrTail_length_pos tl
        omega
      have htl : (strArrTail tl).length ≤ f := by
        have h1 := strJ_length_pos x
        omega
      rw [harg, parseJ_arr_cons f x tl rest]
      simp only [rt_strJ x f (strArrTail tl ++ rest) hx (headNotDigit_strArrTail tl rest),
        rt_strArrTail tl f rest htl hr]
  | .obj .nil, fuel, rest, hf, _hr => by
    cases fuel with
    | zero => simp [strJ, strObjBody] at hf
    | succ f => simp [strJ, strObjBody, parseJ]
  | .obj (.cons k v tl), fuel, rest, hf, hr => by
    cases fuel with
    | zero =>
      have hp := strJ_length_pos (.obj (.cons k v tl))
      omega
    | succ f =>
      have harg : strJ (.obj (.cons k v tl)) ++ rest
          = '\x7b' :: (strObjBody (.cons k v tl) ++ rest) := by
        simp [strJ]
      have hbody : (strObjBody (.cons k v tl)).length ≤ f := by
        simp only [strJ, List.length_cons] at hf
        omega
      rw [harg, parseJ_obj_cons f k v tl rest,
        rt_strObjFields k v tl f rest hbody hr]
  termination_by v _ _ _ _ => sizeOf v

theorem rt_strArrTail : ∀ (a : JsonArr) (fuel : Nat) (rest : List Char),
    (strArrTail a).length ≤ fuel → headNotDigit rest = true →
    parseArrTail fuel (strArrTail a ++ rest) = some (a, rest)
  | .nil, fuel, rest, hf, _hr => by
    cases fuel with
    | zero => simp [strArrTail] at hf
    | succ f => simp [strArrTail, parseArrTail]
  | .cons x tl, fuel, rest, hf, hr => by
    cases fuel with
    | zero => simp [strArrTail] at hf
    | succ f =>
      have hlen : 1 + (strJ x).length + (strArrTail tl).length ≤ f + 1 := by
        simp only [strArrTail, List.length_cons, List.length_append] at hf
        omega
      have hx : (strJ x).length ≤ f := by
        have h1 := strArrTail_length_pos tl
        omega
      have htl : (strArrTail tl).length ≤ f := by
        have h1 := strJ_length_pos x
        omega
      have harg : strArrTail (.cons x tl) ++ rest
          = ',' :: (strJ x ++ (strArrTail tl ++ rest)) := by
        simp [strArrTail]
      rw [harg]
      simp only [parseArrTail]
      simp only [rt_strJ x f (strArrTail tl ++ rest) hx (headNotDigit_strArrTail tl rest),
        rt_strArrTail tl f rest htl hr]
  termination_by a _ _ _ _ => sizeOf a

theorem rt_strObjFields : ∀ (k : List Char) (v : Json) (tl : JsonObj) (fuel : Nat)
    (rest : List Char),
    (strObjBody (.cons k v tl)).length ≤ fuel → headNotDigit rest = true →
    parseObjFields fuel (strObjBody (.cons k v tl) ++ rest) = some (.cons k v tl, rest)
  | k, v, tl, fuel, rest, hf, hr => by
    cases fuel with
    | zero =>
      simp [strObjBody] at hf
    | succ f =>
      have hlen : 3 + (escStr k).length + (strJ v).length + (strObjTail tl).length ≤ f + 1 := by
        simp only [strObjBody, List.length_cons, List.length_append] at hf
        omega
      have hv : (strJ v).length ≤ f := by
        have h1 := strObjTail_length_pos tl
        omega
      have harg : strObjBody (.cons k v tl) ++ rest
          = '"' :: (escStr k ++ ('"' :: (':' :: (strJ v ++ (strObjTail tl ++ rest))))) := by
        simp [strObjBody]
      rw [harg]
      simp only [parseObjFields]
      simp only [parseStrBody_escStr k (':' :: (strJ v ++ (strObjTail tl ++ rest))),
        rt_strJ v f (strObjTail tl ++ rest) hv (headNotDigit_strObjTail tl rest)]
      cases tl with
      | nil => simp [strObjTail]
      | cons k₁ v₁ tl₁ =>
        have harg₂ : strObjTail (.cons k₁ v₁ tl₁) ++ rest
            = ',' :: (strObjBody (.cons k₁ v₁ tl₁) ++ rest) := by
          simp [strObjTail, strObjBody]
        have hbody₁ : (strObjBody (.cons k₁ v₁ tl₁)).length ≤ f := by
          have heq : (strObjTail (.cons k₁ v₁ tl₁)).length
              = 1 + (strObjBody (.cons k₁ v₁ tl₁)).length := by
            simp [strObjTail, strObjBody]
            omega
          omega
        rw [harg₂]
        simp only [rt_strObjFields k₁ v₁ tl₁ f rest hbody₁ hr]
  termination_by k v tl _ _ _ _ => 1 + sizeOf v + sizeOf tl

end

theorem jsonParse_strJ (v : Json) : jsonParse (strJ v) = some v := by
  have h := rt_strJ v ((strJ v).length + 1) [] (by omega) rfl
  rw [List.append_nil] at h
  simp [jsonParse, h]

/-! ## Delimiter splitting of whole frames -/

theorem matchDelimAt_wrapFrame (s : List Char) : matchDelimAt (wrapFrame s) = some s := by
  have h := takeWhile_digits_append (natToChars s.length) ('~' :: 'm' :: '~' :: s)
    (by rw [natToChars]; exact natToCharsAux_digits s.length s.length) rfl
  simp only [wrapFrame, matchDelimAt, h.1, h.2]
  rw [if_neg ?hne]
  case hne =>
    simp only [List.isEmpty_iff]
    rw [natToChars]
    exact natToCharsAux_ne_nil s.length s.length

theorem splitDelimAux_no_delim : ∀ (fuel : Nat) (cs acc : List Char),
    cs.length < fuel → hasDelim cs = false →
    splitDelimAux fuel cs acc = [acc.reverse ++ cs] := by
  intro fuel
  induction fuel with
  | zero =>
    intro cs acc h _
    omega
  | succ fuel ih =>
    intro cs acc hlen hnd
    cases cs with
    | nil => simp [splitDelimAux, matchDelimAt]
    | cons c cs₁ =>
      simp only [hasDelim, Bool.or_eq_false_iff] at hnd
      have hm : matchDelimAt (c :: cs₁) = none :=
        Option.not_isSome_iff_eq_none.mp (by rw [hnd.1]; exact Bool.false_ne_true)
      simp only [splitDelimAux, hm]
      rw [ih cs₁ (c :: acc) (by simp at hlen ⊢; omega) hnd.2]
      simp

theorem wrapFrame_length (s : List Char) : s.length + 7 ≤ (wrapFrame s).length := by
  have h1 : natToChars s.length ≠ [] := by
    rw [natToChars]
    exact natToCharsAux_ne_nil s.length s.length
  have h2 : 1 ≤ (natToChars s.length).length := List.length_pos.mpr h1
  simp only [wrapFrame, List.length_cons, List.length_append]
  omega

theorem splitDelimAux_succ (fuel : Nat) (cs acc : List Char) :
    splitDelimAux (fuel + 1) cs acc =
      (match matchDelimAt cs with
       | some rest => acc.reverse :: splitDelimAux fuel rest []
       | none =>
         match cs with
         | [] => [acc.reverse]
         | c :: cs₁ => splitDelimAux fuel cs₁ (c :: acc)) := rfl

theorem splitDelim_wrapFrame (s : List Char) (h : hasDelim s = false) :
    splitDelim (wrapFrame s) = [[], s] := by
  rw [splitDelim, splitDelimAux_succ, matchDelimAt_wrapFrame]
  show [].reverse :: splitDelimAux (wrapFrame s).length s [] = [[], s]
  rw [splitDelimAux_no_delim (wrapFrame s).length s []
    (by have := wrapFrame_length s; omega) h]
  simp

theorem parseMessage_wrapFrame (s : List Char) (h : hasDelim s = false) :
    parseMessage (wrapFrame s) =
      (match classifySub s with
       | .ok p => .ok [p]
       | .error e => .error e) := by
  have hlen : ¬((wrapFrame s).length = 0) := by
    have := wrapFrame_length s
    omega
  rw [parseMessage, if_neg hlen, splitDelim_wrapFrame s h]
  have hm : (([s].drop 0).mapM classifySub : Except JsErrorKind (List MessagePayload)) =
      classifySub s >>= (fun p => pure [p]) := rfl
  simp only [List.drop] at hm
  rw [show ([[], s].drop 1 : List (List Char)) = [s] from rfl, hm]
  cases hc : classifySub s with
  | ok p => rfl
  | error e => rfl

/-! ## Claim C6 — round trip of createMessage and parseMessage -/

/-- Counterexample for C6: a parameter list containing a string that itself
matches the frame delimiter (`~m~1~m~`) makes the round trip fail — the
split cuts the JSON text apart and `JSON.parse` throws a syntax error —
rather than yield one application event with the original name and
parameters. -/
theorem createMessage_roundtrip_fails_on_delimiter_param :
    parseMessage (createMessage ['x'] (.cons (.str "~m~1~m~".data) .nil)) =
      .error .syntaxError := rfl

/-- Claim C6 (amended): provided the serialised `{m: name, p: params}` text
contains no occurrence of the delimiter pattern `~m~<digits>~m~`, decoding
an encoded command yields exactly one application-event payload carrying
the original method name and parameter list. -/
theorem createMessage_parseMessage_roundtrip (name : List Char) (params : JsonArr)
    (hnod : hasDelim (strJ (envelopeJson name params)) = false) :
    parseMessage (createMessage name params) = .ok [.event (envelopeJson name params)] := by
  rw [createMessage, parseMessage_wrapFrame _ hnod]
  have hclass : classifySub (strJ (envelopeJson name params)) =
      .ok (.event (envelopeJson name params)) := by
    have htake : (strJ (envelopeJson name params)).take 3 = ['\x7b', '"', 'm'] := rfl
    rw [classifySub, if_neg (by rw [htake]; decide),
      jsonParse_strJ (envelopeJson name params)]
    rfl
  rw [hclass]

/-- Witness for C6 at a concrete command: `chart_create_session` with a
session id and an empty string as parameters round-trips to the one
expected event. -/
theorem createMessage_parseMessage_roundtrip_witness :
    parseMessage (createMessage "chart_create_session".data
        (.cons (.str "cs_x1".data) (.cons (.str []) .nil))) =
      .ok [.event (envelopeJson "chart_create_session".data
        (.cons (.str "cs_x1".data) (.cons (.str []) .nil)))] :=
  createMessage_parseMessage_roundtrip "chart_create_session".data
    (.cons (.str "cs_x1".data) (.cons (.str []) .nil)) rfl

/-! ## Claim C8 — classification of unrecognised sub-messages -/

/-- Counterexample for C8: the sub-message `{"foo":1}` is neither a
keepalive, nor carries a `session_id`, nor has the `m`/`p` shape — yet the
codec classifies it as an application event and succeeds; it does not fail
with `ProtocolError` (the codec never constructs one). -/
theorem parseMessage_accepts_non_mp_shape :
    parseMessage ("~m~9~m~\x7b\"foo\":1\x7d".data) =
      .ok [.event (.obj (.cons "foo".data (.num 1) .nil))] := rfl

/-- Claim C8 (amended): a non-keepalive sub-message that parses as JSON is
classified by content alone: a parsed value other than `null` without a
truthy `session_id` becomes an application event regardless of `m`/`p`
shape; a sub-message that parses to JSON `null` throws a `TypeError` from
the `session_id` field access; a sub-message that is not JSON at all makes
the codec throw the `JSON.parse` syntax error. No input produces a
`ProtocolError`. -/
theorem parseMessage_classification (s : List Char)
    (hnod : hasDelim s = false) (hph : s.take 3 ≠ ['~', 'h', '~']) :
    (∀ v : Json, jsonParse s = some v → v ≠ .null → hasTruthySessionId v = false →
      parseMessage (wrapFrame s) = .ok [.event v]) ∧
    (jsonParse s = some .null → parseMessage (wrapFrame s) = .error .typeError) ∧
    (jsonParse s = none → parseMessage (wrapFrame s) = .error .syntaxError) := by
  refine ⟨?_, ?_, ?_⟩
  · intro v hv hnull hsid
    rw [parseMessage_wrapFrame s hnod]
    have hclass : classifySub s = .ok (.event v) := by
      rw [classifySub, if_neg hph, hv]
      cases v with
      | null => exact absurd rfl hnull
      | bool b => simp [hsid]
      | num n => simp [hsid]
      | str t => simp [hsid]
      | arr a => simp [hsid]
      | obj fs => simp [hsid]
    rw [hclass]
  · intro hv
    rw [parseMessage_wrapFrame s hnod]
    rw [classifySub, if_neg hph, hv]
  · intro hv
    rw [parseMessage_wrapFrame s hnod]
    rw [classifySub, if_neg hph, hv]

/-- Witness for C8 at the concrete sub-messages `{"foo":1}` (an event
despite having no `m`/`p` shape) and `null` (a `TypeError`, not a
`ProtocolError`). -/
theorem parseMessage_classification_witness :
    parseMessage (wrapFrame ("\x7b\"foo\":1\x7d".data)) =
      .ok [.event (.obj (.cons "foo".data (.num 1) .nil))] ∧
    parseMessage (wrapFrame ("null".data)) = .error .typeError :=
  ⟨(parseMessage_classification ("\x7b\"foo\":1\x7d".data) rfl (by decide)).1
      (.obj (.cons "foo".data (.num 1) .nil)) rfl (by intro h; exact Json.noConfusion h) rfl,
    (parseMessage_classification ("null".data) rfl (by decide)).2.1 rfl⟩

/-! ## Claim C1 — concurrent retrieval preserves input order

The run under scrutiny: one `timescale_update` delivering each symbol's
bars, then the per-symbol completion events in an arbitrary order given by
a permutation `perm` of the symbol indices. The proof maintains a fold
invariant (`concInv`) over the processed completion indices. -/

/-- The bar series a symbol is expected to resolve with: its delivered bars,
trimmed to the amount when one was given, processed into named candles. -/
def concExpected (amount : Option Nat) (bar : List RawCandle) : List Candle :=
  processCandles (if jsAmtTruthy amount then bar.take (amount.getD 0) else bar)

/-- Helper: a passing `validateSymbols` means at least one symbol and no
empty-string symbols. -/
theorem validateSymbols_ok_facts (symbols : List String)
    (h : validateSymbols symbols = .ok ()) :
    symbols.length ≠ 0 ∧ ∀ s ∈ symbols, s ≠ "" := by
  rw [validateSymbols] at h
  split at h
  · exact absurd h (by simp)
  · split at h
    · exact absurd h (by simp)
    · split at h
      · rename_i hlen _ hall
        refine ⟨hlen, fun s hs hemp => ?_⟩
        subst hemp
        have h2 := List.all_eq_true.mp hall "" hs
        rw [show (validateSymbol "").isOk = false from rfl] at h2
        exact Bool.false_ne_true h2
      · exact absurd h (by simp)

/-- Helper: looking a zipped session id up in the session map yields the
symbol at the same index, when the ids are collision-free. -/
theorem mapGet_zip_getD (ids syms : List String) (i : Nat)
    (hnod : ids.Nodup) (hlen : ids.length = syms.length) (hi : i < ids.length) :
    mapGet (ids.zip syms) (ids.getD i "") = some (syms.getD i "") := by
  induction ids generalizing syms i with
  | nil => simp at hi
  | cons id₀ ids ih =>
    cases syms with
    | nil => simp at hlen
    | cons sym₀ syms =>
      cases i with
      | zero => simp [mapGet, List.zip_cons_cons]
      | succ i =>
        have hi₁ : i < ids.length := by simpa using hi
        have hmem : ids.getD i "" ∈ ids := by
          rw [List.getD_eq_getElem ids "" hi₁]
          exact List.getElem_mem hi₁
        have hne : ¬(id₀ = ids.getD i "") :=
          fun hcontra => (List.nodup_cons.mp hnod).1 (hcontra ▸ hmem)
        simp only [List.zip_cons_cons, mapGet, List.getD_cons_succ, hne, if_false]
        exact ih syms i (List.nodup_cons.mp hnod).2 (by simpa using hlen) hi₁

/-- Helper: the state table built by the init loop binds every symbol to the
fresh state. -/
theorem mapGet_buildStates (l : List String) (m : List (String × SymbolState)) (k : String) :
    mapGet (l.foldl (fun acc s => mapSet acc s freshSymbolState) m) k =
      (if k ∈ l then some freshSymbolState else mapGet m k) := by
  induction l generalizing m with
  | nil => simp
  | cons s l ih =>
    simp only [List.foldl_cons, ih, List.mem_cons]
    by_cases hk : k ∈ l
    · simp [hk]
    · by_cases hs : k = s
      · simp [hk, hs, mapGet_mapSet_self]
      · simp [hk, hs, mapGet_mapSet_ne m s k freshSymbolState hs]

/-- The invariant of the completion phase: `done` lists the indices whose
completion event has been processed. States hold each symbol's bars with
its completion bit; the results array has exactly the completed slots
filled, in input position; the promise has resolved (with the results
array) exactly when every index is done. -/
def concInv (symbols : List String) (amount : Option Nat)
    (bars : List (List RawCandle)) (done : List Nat) (st : ConcState) : Prop :=
  (∀ j, j < symbols.length →
    ∃ e, mapGet st.symbolStates (symbols.getD j "") =
      some ⟨bars.getD j [], decide (j ∈ done), e⟩) ∧
  st.results.length = symbols.length ∧
  (∀ j, j < symbols.length →
    st.results[j]? =
      some (if j ∈ done then some (concExpected amount (bars.getD j [])) else none)) ∧
  st.completedCount = done.length ∧
  st.unsubscribed = decide (done.length = symbols.length) ∧
  st.outcome = (if done.length = symbols.length then some (.resolved st.results) else none)

/-- The invariant of the delivery phase: the first `k` symbols have their
bars accumulated, nothing is completed, and the bookkeeping is untouched. -/
def concInvA (symbols : List String) (bars : List (List RawCandle)) (k : Nat)
    (st : ConcState) : Prop :=
  (∀ j, j < symbols.length →
    mapGet st.symbolStates (symbols.getD j "") =
      some ⟨if j < k then bars.getD j [] else [], false, false⟩) ∧
  st.results = List.replicate symbols.length none ∧
  st.completedCount = 0 ∧
  st.outcome = none ∧
  st.unsubscribed = false

/-- Helper: in a duplicate-free list, looking up the element at index `j`
finds it back at index `j`. -/
theorem indexOf_getD (l : List String) (hnod : l.Nodup) (j : Nat) (hj : j < l.length) :
    List.indexOf (l.getD j "") l = j := by
  induction l generalizing j with
  | nil => simp at hj
  | cons a l ih =>
    cases j with
    | zero => simp [List.indexOf_cons_self]
    | succ j =>
      have hj' : j < l.length := by simpa using hj
      have hmem : l.getD j "" ∈ l := by
        rw [List.getD_eq_getElem l "" hj']
        exact List.getElem_mem hj'
      have hne : a ≠ l.getD j "" := fun hcontra => (List.nodup_cons.mp hnod).1 (hcontra ▸ hmem)
      rw [List.getD_cons_succ, List.indexOf_cons_ne l hne, ih (List.nodup_cons.mp hnod).2 j hj']

/-- Helper: distinct indices of a duplicate-free list hold distinct
elements. -/
theorem getD_ne_of_nodup (l : List String) (hnod : l.Nodup) (i j : Nat)
    (hi : i < l.length) (hj : j < l.length) (hij : i ≠ j) :
    l.getD i "" ≠ l.getD j "" := by
  intro hcontra
  apply hij
  rw [← indexOf_getD l hnod i hi, ← indexOf_getD l hnod j hj, hcontra]

/-- Delivery step: one `timescale_update` for symbol `k` moves the delivery
invariant from `k` to `k + 1` symbols delivered. -/
theorem concStepA (symbols sessionIds : List String) (amount : Option Nat)
    (bars : List (List RawCandle)) (k : Nat) (st : ConcState)
    (hemp : ∀ s ∈ symbols, s ≠ "")
    (hnods : symbols.Nodup) (hnodi : sessionIds.Nodup)
    (hlen : sessionIds.length = symbols.length) (hk : k < symbols.length)
    (hsize : (bars.getD k []).length ≤ calculateBatchSize amount)
    (hinv : concInvA symbols bars k st) :
    concInvA symbols bars (k + 1)
      (concStep ⟨symbols, sessionIds.zip symbols, calculateBatchSize amount, amount⟩ st
        (updEvent (sessionIds.getD k "") (bars.getD k []))) := by
  obtain ⟨hstates, hres, hcc, hout, huns⟩ := hinv
  have hk2 : k < sessionIds.length := by rw [hlen]; exact hk
  have hmap : mapGet (sessionIds.zip symbols) (sessionIds.getD k "") =
      some (symbols.getD k "") := mapGet_zip_getD _ _ _ hnodi hlen hk2
  have hsymmem : symbols.getD k "" ∈ symbols := by
    rw [List.getD_eq_getElem symbols "" hk]
    exact List.getElem_mem hk
  have hne : (symbols.getD k "").isEmpty = false := by
    rcases hcase : (symbols.getD k "").isEmpty with _ | _
    · rfl
    · exact absurd ((String.isEmpty_iff _).mp hcase) (hemp _ hsymmem)
  have hsk : mapGet st.symbolStates (symbols.getD k "") = some ⟨[], false, false⟩ := by
    rw [hstates k hk, if_neg (Nat.lt_irrefl k)]
  have hsize2 : ¬calculateBatchSize amount < (bars.getD k []).length := Nat.not_lt.mpr hsize
  have hkey : findSeriesKey [("sds_1", ⟨some (bars.getD k [])⟩)] = some "sds_1" := rfl
  have hmg : mapGet [("sds_1", (⟨some (bars.getD k [])⟩ : SeriesEntry))] "sds_1" =
      some ⟨some (bars.getD k [])⟩ := rfl
  simp only [List.getD_eq_getElem?_getD] at hmap hne hsk hsize2 hkey hmg
  have hstep : concStep ⟨symbols, sessionIds.zip symbols, calculateBatchSize amount, amount⟩ st
      (updEvent (sessionIds.getD k "") (bars.getD k [])) =
      { st with symbolStates :=
          mapSet st.symbolStates (symbols.getD k "") ⟨bars.getD k [], false, false⟩ } := by
    simp [concStep, concTimescale, updEvent, huns, hmap, jsStrFalsy, hne, hsk,
      hkey, hmg, hsize2]
  rw [hstep]
  refine ⟨?_, hres, hcc, hout, huns⟩
  intro j hj
  by_cases hjk : j = k
  · subst hjk
    rw [mapGet_mapSet_self]
    simp [Nat.lt_succ_self]
  · rw [mapGet_mapSet_ne st.symbolStates (symbols.getD k "") (symbols.getD j "") _
      (getD_ne_of_nodup symbols hnods j k hj hk hjk), hstates j hj]
    by_cases hjlt : j < k
    · simp [hjlt, Nat.lt_succ_of_lt hjlt]
    · have hnlt : ¬j < k + 1 :=
        fun h => hjlt (Nat.lt_of_le_of_ne (Nat.lt_succ_iff.mp h) hjk)
      simp [hjlt, hnlt]

/-- Delivery fold: feeding the whole batch of `timescale_update` events
establishes the fully delivered invariant. -/
theorem concFoldA (symbols sessionIds : List String) (amount : Option Nat)
    (bars : List (List RawCandle))
    (hemp : ∀ s ∈ symbols, s ≠ "")
    (hnods : symbols.Nodup) (hnodi : sessionIds.Nodup)
    (hlen : sessionIds.length = symbols.length)
    (hsize : ∀ j, j < symbols.length → (bars.getD j []).length ≤ calculateBatchSize amount)
    (m k : Nat) (st : ConcState)
    (hkm : k + m = symbols.length)
    (hinv : concInvA symbols bars k st) :
    concInvA symbols bars symbols.length
      ((List.range' k m).foldl
        (fun s i =>
          concStep ⟨symbols, sessionIds.zip symbols, calculateBatchSize amount, amount⟩ s
            (updEvent (sessionIds.getD i "") (bars.getD i []))) st) := by
  induction m generalizing k st with
  | zero =>
    have hkN : k = symbols.length := by omega
    rw [List.range'_zero, List.foldl_nil, ← hkN]
    exact hinv
  | succ m ih =>
    rw [List.range'_succ, List.foldl_cons]
    exact ih (k + 1) _ (by omega)
      (concStepA symbols sessionIds amount bars k st hemp hnods hnodi hlen (by omega)
        (hsize k (by omega)) hinv)

/-- Bridge: full delivery with nothing completed yields the completion
invariant at the empty completed set. -/
theorem concInvA_to_concInv (symbols : List String) (amount : Option Nat)
    (bars : List (List RawCandle)) (st : ConcState)
    (hN : symbols.length ≠ 0)
    (hinv : concInvA symbols bars symbols.length st) :
    concInv symbols amount bars [] st := by
  obtain ⟨hstates, hres, hcc, hout, huns⟩ := hinv
  refine ⟨?_, ?_, ?_, ?_, ?_, ?_⟩
  · intro j hj
    refine ⟨false, ?_⟩
    rw [hstates j hj]
    simp [hj]
  · rw [hres]
    simp
  · intro j hj
    rw [hres]
    simp [List.getElem?_replicate, hj]
  · rw [hcc]
    rfl
  · rw [huns]
    simp [Ne.symm hN]
  · rw [hout, if_neg (fun h => hN (by simpa using h.symm))]

/-- Completion step: one `series_completed`/`symbol_error` event for a not
yet completed symbol `i` extends the completion invariant by `i`, writing
the symbol's candles into the results slot at its original input index. -/
theorem concStepB (symbols sessionIds : List String) (amount : Option Nat)
    (bars : List (List RawCandle)) (names : Nat → String)
    (i : Nat) (done : List Nat) (st : ConcState)
    (hemp : ∀ s ∈ symbols, s ≠ "")
    (hnods : symbols.Nodup) (hnodi : sessionIds.Nodup)
    (hlen : sessionIds.length = symbols.length)
    (hi : i < symbols.length)
    (hterm : shouldRequestMoreInline (bars.getD i []).length (calculateBatchSize amount)
      amount = false)
    (hname : names i = "series_completed" ∨ names i = "symbol_error")
    (hdnod : done.Nodup) (hdsub : ∀ x ∈ done, x < symbols.length) (hdi : i ∉ done)
    (hinv : concInv symbols amount bars done st) :
    concInv symbols amount bars (i :: done)
      (concStep ⟨symbols, sessionIds.zip symbols, calculateBatchSize amount, amount⟩ st
        (cmplEvent (names i) (sessionIds.getD i ""))) := by
  obtain ⟨hstates, hreslen, hres, hcc, huns, hout⟩ := hinv
  have hlt : done.length < symbols.length := by
    have hnd : (i :: done).Nodup := List.nodup_cons.mpr ⟨hdi, hdnod⟩
    have hsub : (i :: done) ⊆ List.range symbols.length := by
      intro x hx
      rcases List.mem_cons.mp hx with h | h
      · exact List.mem_range.mpr (h ▸ hi)
      · exact List.mem_range.mpr (hdsub x h)
    have hle := (hnd.subperm hsub).length_le
    simpa using hle
  have hunsf : st.unsubscribed = false := by
    rw [huns]
    simp [Nat.ne_of_lt hlt]
  have houtn : st.outcome = none := by
    rw [hout, if_neg (Nat.ne_of_lt hlt)]
  have hi2 : i < sessionIds.length := by rw [hlen]; exact hi
  have hmap : mapGet (sessionIds.zip symbols) (sessionIds.getD i "") =
      some (symbols.getD i "") := mapGet_zip_getD _ _ _ hnodi hlen hi2
  have hsymmem : symbols.getD i "" ∈ symbols := by
    rw [List.getD_eq_getElem symbols "" hi]
    exact List.getElem_mem hi
  have hne : (symbols.getD i "").isEmpty = false := by
    rcases hcase : (symbols.getD i "").isEmpty with _ | _
    · rfl
    · exact absurd ((String.isEmpty_iff _).mp hcase) (hemp _ hsymmem)
  obtain ⟨e, hsk⟩ := hstates i hi
  have hdec : decide (i ∈ done) = false := decide_eq_false hdi
  rw [hdec] at hsk
  have hnm1 : (names i == "timescale_update") = false := by
    rcases hname with h | h <;> rw [h] <;> rfl
  have hnm2 : (names i == "series_completed" || names i == "symbol_error") = true := by
    rcases hname with h | h <;> rw [h] <;> rfl
  have hidx : List.indexOf (symbols.getD i "") symbols = i := indexOf_getD symbols hnods i hi
  have hccd : st.completedCount + 1 = done.length + 1 := by rw [hcc]
  simp only [List.getD_eq_getElem?_getD] at hmap hne hsk hidx hterm
  have hstep : concStep ⟨symbols, sessionIds.zip symbols, calculateBatchSize amount, amount⟩ st
      (cmplEvent (names i) (sessionIds.getD i "")) =
      (if done.length + 1 = symbols.length then
        { symbolStates := mapSet st.symbolStates (symbols.getD i "")
            ⟨bars.getD i [], true, if names i == "symbol_error" then true else e⟩
          results := st.results.set i (some (concExpected amount (bars.getD i [])))
          completedCount := done.length + 1
          sent := st.sent
          outcome := some (.resolved
            (st.results.set i (some (concExpected amount (bars.getD i [])))))
          unsubscribed := true }
      else
        { symbolStates := mapSet st.symbolStates (symbols.getD i "")
            ⟨bars.getD i [], true, if names i == "symbol_error" then true else e⟩
          results := st.results.set i (some (concExpected amount (bars.getD i [])))
          completedCount := done.length + 1
          sent := st.sent
          outcome := none
          unsubscribed := false }) := by
    simp [concStep, concSeries, cmplEvent, concExpected, settle, hunsf, houtn, hmap,
      jsStrFalsy, hne, hsk, hnm1, hnm2, hterm, hidx, hcc]
  rw [hstep]
  by_cases hfull : done.length + 1 = symbols.length
  · rw [if_pos hfull]
    refine ⟨?_, ?_, ?_, ?_, ?_, ?_⟩
    · intro j hj
      by_cases hji : j = i
      · subst hji
        refine ⟨if names j == "symbol_error" then true else e, ?_⟩
        rw [mapGet_mapSet_self]
        simp
      · obtain ⟨e2, he2⟩ := hstates j hj
        refine ⟨e2, ?_⟩
        rw [mapGet_mapSet_ne st.symbolStates (symbols.getD i "") (symbols.getD j "") _
          (getD_ne_of_nodup symbols hnods j i hj hi hji), he2]
        simp [List.mem_cons, hji]
    · simp [List.length_set, hreslen]
    · intro j hj
      by_cases hji : j = i
      · subst hji
        simp [List.getElem?_set, hreslen, hj, List.mem_cons]
      · rw [show (st.results.set i (some (concExpected amount (bars.getD i []))))[j]? =
            st.results[j]? from List.getElem?_set_ne (fun h => hji h.symm), hres j hj]
        simp [List.mem_cons, hji]
    · simp
    · simp [List.length_cons, hfull]
    · simp [List.length_cons, hfull]
  · rw [if_neg hfull]
    refine ⟨?_, ?_, ?_, ?_, ?_, ?_⟩
    · intro j hj
      by_cases hji : j = i
      · subst hji
        refine ⟨if names j == "symbol_error" then true else e, ?_⟩
        rw [mapGet_mapSet_self]
        simp
      · obtain ⟨e2, he2⟩ := hstates j hj
        refine ⟨e2, ?_⟩
        rw [mapGet_mapSet_ne st.symbolStates (symbols.getD i "") (symbols.getD j "") _
          (getD_ne_of_nodup symbols hnods j i hj hi hji), he2]
        simp [List.mem_cons, hji]
    · simp [List.length_set, hreslen]
    · intro j hj
      by_cases hji : j = i
      · subst hji
        simp [List.getElem?_set, hreslen, hj, List.mem_cons]
      · rw [show (st.results.set i (some (concExpected amount (bars.getD i []))))[j]? =
            st.results[j]? from List.getElem?_set_ne (fun h => hji h.symm), hres j hj]
        simp [List.mem_cons, hji]
    · simp
    · simp [List.length_cons, hfull]
    · simp [List.length_cons, hfull]

/-- Completion fold: feeding the completion events for the indices in `p`
in that order extends the completion invariant by all of `p`. -/
theorem concFoldB (symbols sessionIds : List String) (amount : Option Nat)
    (bars : List (List RawCandle)) (names : Nat → String)
    (hemp : ∀ s ∈ symbols, s ≠ "")
    (hnods : symbols.Nodup) (hnodi : sessionIds.Nodup)
    (hlen : sessionIds.length = symbols.length)
    (hterm : ∀ j, j < symbols.length →
      shouldRequestMoreInline (bars.getD j []).length (calculateBatchSize amount)
        amount = false)
    (hnames : ∀ j, j < symbols.length →
      names j = "series_completed" ∨ names j = "symbol_error")
    (p done : List Nat) (st : ConcState)
    (hsub : ∀ x ∈ done ++ p, x < symbols.length)
    (hnodup : (done ++ p).Nodup)
    (hinv : concInv symbols amount bars done st) :
    concInv symbols amount bars (p.reverse ++ done)
      (p.foldl
        (fun s i =>
          concStep ⟨symbols, sessionIds.zip symbols, calculateBatchSize amount, amount⟩ s
            (cmplEvent (names i) (sessionIds.getD i ""))) st) := by
  induction p generalizing done st with
  | nil => simpa using hinv
  | cons i p ih =>
    have hperm2 : (done ++ i :: p).Perm (i :: (done ++ p)) := List.perm_middle
    have hnodup2 : (i :: (done ++ p)).Nodup := hperm2.nodup hnodup
    have hi : i < symbols.length := hsub i (by simp)
    have hdi : i ∉ done :=
      fun h => (List.nodup_cons.mp hnodup2).1 (List.mem_append.mpr (Or.inl h))
    have hstep := concStepB symbols sessionIds amount bars names i done st hemp hnods hnodi
      hlen hi (hterm i hi) (hnames i hi) (List.nodup_append.mp hnodup).1
      (fun x hx => hsub x (List.mem_append.mpr (Or.inl hx))) hdi hinv
    have hlist : (i :: p).reverse ++ done = p.reverse ++ (i :: done) := by
      simp [List.reverse_cons, List.append_assoc]
    rw [List.foldl_cons, hlist]
    refine ih (i :: done) _ ?_ ?_ hstep
    · intro x hx
      apply hsub
      rcases List.mem_append.mp hx with h | h
      · rcases List.mem_cons.mp h with h2 | h2
        · exact List.mem_append.mpr (Or.inr (List.mem_cons.mpr (Or.inl h2)))
        · exact List.mem_append.mpr (Or.inl h2)
      · exact List.mem_append.mpr (Or.inr (List.mem_cons.mpr (Or.inr h)))
    · exact hnodup2

/-- **C1.** For every validated, duplicate-free symbol list with
collision-free chart-session ids, every requested amount, every per-symbol
bar payload that fits in one page, and every arrival order of the
per-symbol completion events (each either `series_completed` or
`symbol_error`), the promise of `getCandlesConcurrent` resolves with the
per-symbol candle series placed at each symbol's original input index: the
result order matches the caller's input order regardless of completion
order on the wire. -/
theorem concRun_preserves_input_order
    (symbols sessionIds : List String) (amount : Option Nat)
    (bars : List (List RawCandle)) (names : Nat → String) (perm : List Nat)
    (hval : validateSymbols symbols = .ok ())
    (hnods : symbols.Nodup) (hnodi : sessionIds.Nodup)
    (hlen : sessionIds.length = symbols.length)
    (hsize : ∀ j, j < symbols.length →
      (bars.getD j []).length ≤ calculateBatchSize amount ∧
        shouldRequestMoreInline (bars.getD j []).length (calculateBatchSize amount)
          amount = false)
    (hnames : ∀ j, j < symbols.length →
      names j = "series_completed" ∨ names j = "symbol_error")
    (hperm : perm.Perm (List.range symbols.length)) :
    (concRun symbols sessionIds amount
      (((List.range symbols.length).map fun i =>
          updEvent (sessionIds.getD i "") (bars.getD i [])) ++
        perm.map fun i => cmplEvent (names i) (sessionIds.getD i ""))).outcome =
      some (.resolved ((List.range symbols.length).map fun i =>
        some (concExpected amount (bars.getD i [])))) := by
  obtain ⟨hN, hemp⟩ := validateSymbols_ok_facts symbols hval
  have hinit : concInvA symbols bars 0 (concInit symbols sessionIds amount).2 := by
    refine ⟨?_, rfl, rfl, rfl, rfl⟩
    intro j hj
    have hmem : symbols.getD j "" ∈ symbols := by
      rw [List.getD_eq_getElem symbols "" hj]
      exact List.getElem_mem hj
    show mapGet (symbols.foldl (fun m s => mapSet m s freshSymbolState) [])
        (symbols.getD j "") = _
    rw [mapGet_buildStates, if_pos hmem]
    simp [freshSymbolState]
  have hA := concFoldA symbols sessionIds amount bars hemp hnods hnodi hlen
    (fun j hj => (hsize j hj).1) symbols.length 0 (concInit symbols sessionIds amount).2
    (by omega) hinit
  have hsub0 : ∀ x ∈ ([] : List Nat) ++ perm, x < symbols.length := by
    intro x hx
    exact List.mem_range.mp (hperm.mem_iff.mp (by simpa using hx))
  have hnodup0 : (([] : List Nat) ++ perm).Nodup := by
    simpa using hperm.symm.nodup (List.nodup_range symbols.length)
  have hB := concFoldB symbols sessionIds amount bars names hemp hnods hnodi hlen
    (fun j hj => (hsize j hj).2) hnames perm [] _ hsub0 hnodup0
    (concInvA_to_concInv symbols amount bars _ hN hA)
  have hrun : concRun symbols sessionIds amount
      (((List.range symbols.length).map fun i =>
          updEvent (sessionIds.getD i "") (bars.getD i [])) ++
        perm.map fun i => cmplEvent (names i) (sessionIds.getD i "")) =
      perm.foldl
        (fun s i =>
          concStep ⟨symbols, sessionIds.zip symbols, calculateBatchSize amount, amount⟩ s
            (cmplEvent (names i) (sessionIds.getD i "")))
        ((List.range' 0 symbols.length).foldl
          (fun s i =>
            concStep ⟨symbols, sessionIds.zip symbols, calculateBatchSize amount, amount⟩ s
              (updEvent (sessionIds.getD i "") (bars.getD i [])))
          (concInit symbols sessionIds amount).2) := by
    show (((List.range symbols.length).map fun i =>
        updEvent (sessionIds.getD i "") (bars.getD i [])) ++
          perm.map fun i => cmplEvent (names i) (sessionIds.getD i "")).foldl
        (concStep ⟨symbols, sessionIds.zip symbols, calculateBatchSize amount, amount⟩)
        (concInit symbols sessionIds amount).2 = _
    rw [List.foldl_append, List.foldl_map, List.foldl_map, List.range_eq_range']
  obtain ⟨hstates2, hlen2, hres2, hcc2, huns2, hout2⟩ := hB
  have hdlen : (perm.reverse ++ ([] : List Nat)).length = symbols.length := by
    simp [hperm.length_eq]
  rw [hrun, hout2, if_pos hdlen]
  congr 1
  congr 1
  apply List.ext_getElem?
  intro n
  by_cases hn : n < symbols.length
  · rw [hres2 n hn, List.getElem?_map, List.getElem?_range hn]
    have hmemp : n ∈ perm := hperm.mem_iff.mpr (List.mem_range.mpr hn)
    simp [hmemp]
  · have h1 := List.getElem?_eq_none (l := ([] : List Nat)) (n := 0)
    rw [List.getElem?_eq_none (by rw [hlen2]; omega),
      List.getElem?_eq_none (by simpa using Nat.le_of_not_lt hn)]

/-- Witness for C1: two symbols whose completion events arrive in reverse
order still resolve in input order. -/
theorem concRun_preserves_input_order_witness :
    (concRun ["A", "B"] ["s0", "s1"] none
      (((List.range 2).map fun i =>
          updEvent (["s0", "s1"].getD i "")
            ([[⟨0, [1, 2, 3, 4, 5, 6]⟩], [⟨1, [7, 8, 9, 10, 11, 12]⟩]].getD i [])) ++
        [1, 0].map fun i =>
          cmplEvent (if i = 0 then "series_completed" else "symbol_error")
            (["s0", "s1"].getD i ""))).outcome =
      some (.resolved ((List.range 2).map fun i =>
        some (concExpected none
          ([[⟨0, [1, 2, 3, 4, 5, 6]⟩], [⟨1, [7, 8, 9, 10, 11, 12]⟩]].getD i [])))) :=
  concRun_preserves_input_order ["A", "B"] ["s0", "s1"] none
    [[⟨0, [1, 2, 3, 4, 5, 6]⟩], [⟨1, [7, 8, 9, 10, 11, 12]⟩]]
    (fun i => if i = 0 then "series_completed" else "symbol_error") [1, 0]
    rfl (by decide) (by decide) rfl
    (by
      intro j hj
      have hj2 : j < 2 := hj
      interval_cases j
      · exact ⟨by decide, by decide⟩
      · exact ⟨by decide, by decide⟩)
    (by
      intro j hj
      have hj2 : j < 2 := hj
      interval_cases j
      · exact Or.inl rfl
      · exact Or.inr rfl)
    (by decide)

end Tvws
